import Mathlib

/-!
Verification development for the Zenith Finance repository.

The repository is a TypeScript personal-finance tracker.  Its core is a
relational in-memory store (`useAppData`): users, profiles, transactions,
categories, income sources and currencies, mutated by pure snapshot-to-snapshot
operations, plus a CSV export/import pipeline in the settings component.

This file shallowly embeds that core.  JavaScript strings are embedded as
`List Char` (named `Str` below).  JavaScript numbers are embedded as exact
fractions (`Frac` below, a normalized numerator/denominator pair); this is the
usual exact-decimal idealization of the amounts handled by the app, and every
numeric step of the pipeline (parseFloat, number printing) is modelled on it.
Identifier generation (crypto.randomUUID) is an injected capability: operations
take the generated identifier(s) as extra arguments.
-/

/-- JavaScript strings are embedded as lists of characters. -/
abbrev Str := List Char

/-- Shorthand turning a Lean string literal into the embedded string type. -/
def str (s : String) : Str := s.data

/-- Model of JavaScript toLowerCase for the ASCII strings this app handles. -/
def lowerStr (s : Str) : Str := s.map Char.toLower

/-- Characters treated as whitespace by the model of JavaScript trim. -/
def isWsChar (c : Char) : Bool := c == ' ' || c == '\t' || c == '\n' || c == '\r'

/-- Model of JavaScript String.prototype.trim. -/
def trimStr (s : Str) : Str :=
  ((s.dropWhile isWsChar).reverse.dropWhile isWsChar).reverse

/-- Model of JavaScript String.prototype.split with a one-character separator:
splits at every occurrence, keeping empty segments. -/
def splitOnChar (sep : Char) : Str → List Str
  | [] => [[]]
  | c :: cs =>
    match splitOnChar sep cs with
    | [] => [[]]
    | r :: rs => if c == sep then [] :: r :: rs else (c :: r) :: rs

/-- Model of Array.prototype.join with a one-character separator. -/
def joinWith (sep : Char) : List Str → Str
  | [] => []
  | [p] => p
  | p :: ps => p ++ sep :: joinWith sep ps

/-- Does the first list occur contiguously inside the second one? -/
def startsWith : Str → Str → Bool
  | [], _ => true
  | _ :: _, [] => false
  | a :: as, b :: bs => a == b && startsWith as bs

/-- Does the first list occur contiguously anywhere inside the second one? -/
def occursIn (u : Str) : Str → Bool
  | [] => startsWith u []
  | c :: cs => startsWith u (c :: cs) || occursIn u cs

/-- Numeric value of an ASCII digit character. -/
def digitVal (c : Char) : Nat := c.toNat - 48

/-- The ASCII digit character of a value below ten. -/
def digitChar (n : Nat) : Char := Char.ofNat (48 + n)

/-- Most-significant-first decimal digits of a natural number, accumulator
style; the first argument is fuel making the recursion structural. -/
def natStrGo : Nat → Nat → Str → Str
  | 0, _, acc => acc
  | fuel + 1, n, acc =>
    if n < 10 then digitChar n :: acc
    else natStrGo fuel (n / 10) (digitChar (n % 10) :: acc)

/-- Decimal digit string of a natural number (model of JS number printing for
naturals). -/
def natStr (n : Nat) : Str := natStrGo (n + 1) n []

/-- Left-pad a digit string with zeros up to the given width. -/
def padZeros (k : Nat) (ds : Str) : Str := List.replicate (k - ds.length) '0' ++ ds

/-- Value of a most-significant-first decimal digit string. -/
def digitsToNat (ds : Str) : Nat := ds.foldl (fun a c => a * 10 + digitVal c) 0

/-- Euclidean gcd with explicit fuel, so that the kernel can evaluate it. -/
def gcdFuel : Nat → Nat → Nat → Nat
  | 0, _, n => n
  | _ + 1, 0, n => n
  | fuel + 1, m + 1, n => gcdFuel fuel (n % (m + 1)) (m + 1)

/-- Gcd of two naturals via the fueled recursion. -/
def natGcd (m n : Nat) : Nat := gcdFuel (m + 1) m n

/-- Exact fractions standing in for JavaScript numbers.  Values built by this
development are kept in lowest terms with a positive denominator. -/
structure Frac where
  num : Int
  den : Nat
deriving DecidableEq

/-- Normalizing constructor for `Frac`. -/
def mkFrac (n : Int) (d : Nat) : Frac :=
  if d = 0 then ⟨0, 1⟩
  else ⟨n / (natGcd n.natAbs d : Int), d / natGcd n.natAbs d⟩

/-- A `Frac` is normalized when its denominator is positive and the pair is in
lowest terms. -/
def Frac.normalized (q : Frac) : Bool := q.den != 0 && natGcd q.num.natAbs q.den == 1

/-- Negation of a fraction. -/
def negFrac (q : Frac) : Frac := ⟨-q.num, q.den⟩

/-- Multiply a fraction by ten to an integer power (used for the exponent part
of parseFloat). -/
def fracApplyExp (q : Frac) (e : Int) : Frac :=
  match e with
  | Int.ofNat k => mkFrac (q.num * (10 ^ k : Nat)) q.den
  | Int.negSucc k => mkFrac q.num (q.den * 10 ^ (k + 1))

/-- Fuel-based count of how many times a prime divides a natural number. -/
def factorCountGo : Nat → Nat → Nat → Nat
  | 0, _, _ => 0
  | fuel + 1, p, n =>
    if 2 ≤ p ∧ 0 < n ∧ n % p = 0 then factorCountGo fuel p (n / p) + 1 else 0

/-- How many times `p` divides `n`. -/
def factorCount (p n : Nat) : Nat := factorCountGo (n + 1) p n

/-- Number of decimal digits needed after the point for a fraction with the
given (reduced) denominator. -/
def decExpOfDen (d : Nat) : Nat := max (factorCount 2 d) (factorCount 5 d)

/-- Does the fraction have a finite decimal expansion? -/
def isFiniteDec (q : Frac) : Bool :=
  q.den != 0 && (10 ^ decExpOfDen q.den) % q.den == 0

/-- Decimal digit string of a nonnegative finite-decimal fraction (model of
JavaScript number printing: minimal digits, no exponent form). -/
def printNonneg (q : Frac) : Str :=
  let k := decExpOfDen q.den
  let m := q.num.natAbs * (10 ^ k / q.den)
  if k = 0 then natStr m
  else natStr (m / 10 ^ k) ++ '.' :: padZeros k (natStr (m % 10 ^ k))

/-- Model of JavaScript number printing (Number.prototype.toString) on the
exact-fraction embedding of numbers. -/
def printFrac (q : Frac) : Str :=
  if q.num < 0 then '-' :: printNonneg q else printNonneg q

/-- Optional exponent suffix of a JavaScript float literal; a malformed
exponent is ignored, exactly as parseFloat ignores trailing garbage. -/
def parseExpPart (cs : Str) : Int :=
  if cs.head? == some 'e' || cs.head? == some 'E' then
    let r := cs.tail
    let negExp := r.head? == some '-'
    let ds := if r.head? == some '-' || r.head? == some '+' then r.tail else r
    let I := (ds.span Char.isDigit).1
    if I = [] then 0
    else if negExp then -(digitsToNat I : Int) else (digitsToNat I : Int)
  else 0

/-- The unsigned part of parseFloat: decimal mantissa (digits, optional point,
digits) followed by an optional exponent; `none` stands for NaN. -/
def parseUnsigned (cs1 : Str) : Option Frac :=
  let I := (cs1.span Char.isDigit).1
  let r1 := (cs1.span Char.isDigit).2
  let F := if r1.head? == some '.' then (r1.tail.span Char.isDigit).1 else []
  let r2 := if r1.head? == some '.' then (r1.tail.span Char.isDigit).2 else r1
  if I = [] ∧ F = [] then none
  else
    let e := parseExpPart r2
    some (fracApplyExp
      (mkFrac (digitsToNat I * 10 ^ F.length + digitsToNat F) (10 ^ F.length)) e)

/-- Model of JavaScript parseFloat on the exact-fraction embedding: skip
leading whitespace, optional sign, decimal mantissa, optional exponent;
`none` stands for NaN (no number at the front).  Infinity literals are not
modelled; none of the repository inputs use them. -/
def jsParseFloat (s : Str) : Option Frac :=
  let cs := s.dropWhile isWsChar
  let neg := cs.head? == some '-'
  let cs1 := if cs.head? == some '-' || cs.head? == some '+' then cs.tail else cs
  match parseUnsigned cs1 with
  | none => none
  | some mag => some (if neg then negFrac mag else mag)

/-- Decimal digit string of an integer, with a sign for negative values. -/
def intStr (n : Int) : Str :=
  if n < 0 then '-' :: natStr n.natAbs else natStr n.natAbs

/-- Wrap an integer into the signed 32-bit range, as the JavaScript bitwise
operations do. -/
def toInt32 (n : Int) : Int := ((n + 2 ^ 31) % 2 ^ 32) - 2 ^ 31

/-- The simpleHash function of the source: a 32-bit rolling hash of the
character codes, rendered in decimal. -/
def simpleHash (s : Str) : Str :=
  intStr (s.foldl (fun h c => toInt32 (toInt32 (h * 32) - h + (c.toNat : Int))) 0)

/-- Entity model, from types.ts: TransactionType and PaymentMethod are string
enums there and the CSV import path writes unvalidated lower-cased strings
into them, so they are embedded as strings. -/
structure Attachment where
  id : Str
  name : Str
  dataUrl : Str
  type : Str
deriving DecidableEq

/-- The Role string enum of types.ts. -/
inductive Role where
  | admin
  | user
deriving DecidableEq

/-- The User record of types.ts. -/
structure User where
  id : Str
  email : Str
  passwordHash : Str
  role : Role
deriving DecidableEq

/-- The Profile record of types.ts. -/
structure Profile where
  id : Str
  name : Str
  currencyCode : Str
  userId : Str
deriving DecidableEq

/-- The Transaction record of types.ts; categoryId, sourceId and attachments
are optional fields there. -/
structure Transaction where
  id : Str
  profileId : Str
  type : Str
  amount : Frac
  description : Str
  date : Str
  categoryId : Option Str
  sourceId : Option Str
  paymentMethod : Str
  attachments : Option (List Attachment)
deriving DecidableEq

/-- The Category record of types.ts; isDefault is optional there. -/
structure Category where
  id : Str
  name : Str
  icon : Str
  isDefault : Option Bool
  profileId : Str
deriving DecidableEq

/-- The IncomeSource record of types.ts, structurally identical to Category. -/
structure IncomeSource where
  id : Str
  name : Str
  icon : Str
  isDefault : Option Bool
  profileId : Str
deriving DecidableEq

/-- The Currency record of types.ts. -/
structure Currency where
  code : Str
  symbol : Str
  name : Str
deriving DecidableEq

/-- The AppData snapshot of types.ts: the whole store state. -/
structure AppData where
  users : List User
  profiles : List Profile
  transactions : List Transaction
  categories : List Category
  incomeSources : List IncomeSource
  currencies : List Currency
deriving DecidableEq

/-- A name/icon template entry of the default category and income-source
seeds. -/
structure SeedTemplate where
  name : Str
  icon : Str
deriving DecidableEq

/-- Modelled from the spec: the repository file constants.ts (holding
DEFAULT_CATEGORIES) is not among the provided sources.  The spec says profile
creation seeds a fixed, non-empty static template of default categories; the
concrete names below are representative placeholders, and no theorem depends
on anything but the list being a fixed non-empty template. -/
def DEFAULT_CATEGORIES : List SeedTemplate :=
  [⟨str "Food", str "Utensils"⟩, ⟨str "Transport", str "Car"⟩, ⟨str "Rent", str "Home"⟩]

/-- Modelled from the spec: DEFAULT_INCOME_SOURCES of the missing constants.ts,
a fixed non-empty static template of default income sources (placeholder
names, as for DEFAULT_CATEGORIES). -/
def DEFAULT_INCOME_SOURCES : List SeedTemplate :=
  [⟨str "Salary", str "Briefcase"⟩, ⟨str "Gifts", str "Gift"⟩]

/-- Modelled from the spec: DEFAULT_CURRENCIES of the missing constants.ts,
the fixed default currency list of a fresh store.  No theorem depends on its
contents. -/
def DEFAULT_CURRENCIES : List Currency :=
  [⟨str "USD", str "$", str "US Dollar"⟩, ⟨str "EUR", str "Euro sign", str "Euro"⟩]

/-- The initial store of useAppData when nothing was persisted. -/
def initialData : AppData :=
  { users := [], profiles := [], transactions := [], categories := [],
    incomeSources := [], currencies := DEFAULT_CURRENCIES }

/-- addUser of useAppData: the role is Admin exactly when the user list is
empty; the generated identifier is injected as an argument. -/
def addUser (S : AppData) (email passwordHash : Str) (id : Str) : AppData × User :=
  let role := if S.users.length = 0 then Role.admin else Role.user
  let newUser : User := ⟨id, email, passwordHash, role⟩
  ({ S with users := S.users ++ [newUser] }, newUser)

/-- addProfile of useAppData: appends the profile and seeds the default
categories and income sources, each scoped to the new profile and carrying an
identifier of the form profileId-uuid; the generated uuids are injected as
functions of the template index. -/
def addProfile (S : AppData) (userId : Str) (name currencyCode : Str)
    (pid : Str) (catUuid srcUuid : Nat → Str) : AppData × Profile :=
  let newProfile : Profile := ⟨pid, name, currencyCode, userId⟩
  let userCategories : List Category :=
    DEFAULT_CATEGORIES.enum.map fun p =>
      ⟨pid ++ '-' :: catUuid p.1, p.2.name, p.2.icon, some true, pid⟩
  let userIncomeSources : List IncomeSource :=
    DEFAULT_INCOME_SOURCES.enum.map fun p =>
      ⟨pid ++ '-' :: srcUuid p.1, p.2.name, p.2.icon, some true, pid⟩
  ({ S with
      profiles := S.profiles ++ [newProfile],
      categories := S.categories ++ userCategories,
      incomeSources := S.incomeSources ++ userIncomeSources }, newProfile)

/-- A transaction value before the store assigns its identifier
(Omit Transaction id). -/
structure NewTransaction where
  profileId : Str
  type : Str
  amount : Frac
  description : Str
  date : Str
  categoryId : Option Str
  sourceId : Option Str
  paymentMethod : Str
  attachments : Option (List Attachment)
deriving DecidableEq

/-- Attach a generated identifier to a new transaction. -/
def NewTransaction.withId (t : NewTransaction) (id : Str) : Transaction :=
  ⟨id, t.profileId, t.type, t.amount, t.description, t.date,
   t.categoryId, t.sourceId, t.paymentMethod, t.attachments⟩

/-- addTransaction of useAppData. -/
def addTransaction (S : AppData) (t : NewTransaction) (id : Str) : AppData :=
  { S with transactions := S.transactions ++ [t.withId id] }

/-- addMultipleTransactions of useAppData: assigns one generated identifier
per element and appends the batch. -/
def addMultipleTransactions (S : AppData) (ts : List NewTransaction)
    (gen : Nat → Str) : AppData :=
  { S with transactions := S.transactions ++ ts.enum.map fun p => p.2.withId (gen p.1) }

/-- updateTransaction of useAppData: map over the list replacing entries whose
identifier matches. -/
def updateTransaction (S : AppData) (u : Transaction) : AppData :=
  { S with transactions := S.transactions.map fun t => if t.id == u.id then u else t }

/-- deleteTransaction of useAppData. -/
def deleteTransaction (S : AppData) (transactionId : Str) : AppData :=
  { S with transactions := S.transactions.filter fun t => ¬ t.id == transactionId }

/-- addCategory of useAppData (isDefault is left unset, as in the source). -/
def addCategory (S : AppData) (profileId : Str) (name icon : Str) (id : Str) : AppData :=
  { S with categories := S.categories ++ [⟨id, name, icon, none, profileId⟩] }

/-- deleteCategory of useAppData. -/
def deleteCategory (S : AppData) (categoryId : Str) : AppData :=
  { S with categories := S.categories.filter fun c => ¬ c.id == categoryId }

/-- addIncomeSource of useAppData. -/
def addIncomeSource (S : AppData) (profileId : Str) (name icon : Str) (id : Str) : AppData :=
  { S with incomeSources := S.incomeSources ++ [⟨id, name, icon, none, profileId⟩] }

/-- deleteIncomeSource of useAppData. -/
def deleteIncomeSource (S : AppData) (sourceId : Str) : AppData :=
  { S with incomeSources := S.incomeSources.filter fun s => ¬ s.id == sourceId }

/-- addCurrency of useAppData. -/
def addCurrency (S : AppData) (currency : Currency) : AppData :=
  { S with currencies := S.currencies ++ [currency] }

/-- deleteCurrency of useAppData: an unconditional filter on the code; no
referential check happens here. -/
def deleteCurrency (S : AppData) (currencyCode : Str) : AppData :=
  { S with currencies := S.currencies.filter fun c => ¬ c.code == currencyCode }

/-- updateProfile of useAppData. -/
def updateProfile (S : AppData) (u : Profile) : AppData :=
  { S with profiles := S.profiles.map fun p => if p.id == u.id then u else p }

/-- deleteProfile of useAppData: cascades to the transactions, categories and
income sources of the profile. -/
def deleteProfile (S : AppData) (profileId : Str) : AppData :=
  { S with
      profiles := S.profiles.filter fun p => ¬ p.id == profileId,
      transactions := S.transactions.filter fun t => ¬ t.profileId == profileId,
      categories := S.categories.filter fun c => ¬ c.profileId == profileId,
      incomeSources := S.incomeSources.filter fun s => ¬ s.profileId == profileId }

/-- The identifiers of the profiles owned by a user (the profileIdsToDelete
set of deleteUser). -/
def profileIdsOf (S : AppData) (userId : Str) : List Str :=
  (S.profiles.filter fun p => p.userId == userId).map (·.id)

/-- deleteUser of useAppData: removes the user, the profiles it owns, and
every transaction, category and income source of those profiles. -/
def deleteUser (S : AppData) (userId : Str) : AppData :=
  let ids := profileIdsOf S userId
  { S with
      users := S.users.filter fun u => ¬ u.id == userId,
      profiles := S.profiles.filter fun p => ¬ p.userId == userId,
      transactions := S.transactions.filter fun t => ¬ ids.contains t.profileId,
      categories := S.categories.filter fun c => ¬ ids.contains c.profileId,
      incomeSources := S.incomeSources.filter fun s => ¬ ids.contains s.profileId }

/-- Replace the first element satisfying the predicate (the findIndex plus
copy-and-set-at-index pattern of the source); none when no element matches. -/
def replaceFirst (p : α → Bool) (f : α → α) : List α → Option (List α)
  | [] => none
  | x :: xs => if p x then some (f x :: xs) else (replaceFirst p f xs).map (x :: ·)

/-- resetPassword of useAppData: look up the first user whose email matches
case-insensitively; on a miss return false and leave the store untouched, on a
hit overwrite that user's passwordHash with the hash of password123. -/
def resetPassword (S : AppData) (email : Str) : AppData × Bool :=
  match replaceFirst (fun u => lowerStr u.email == lowerStr email)
      (fun u => { u with passwordHash := simpleHash (str "password123") }) S.users with
  | none => (S, false)
  | some us => ({ S with users := us }, true)

/-- The number of admins in the store (the adminCount of updateUserRole). -/
def adminCount (S : AppData) : Nat :=
  (S.users.filter fun u => u.role == Role.admin).length

/-- updateUserRole of useAppData: fails on an unknown identifier; a demotion
from Admin to User is rejected while the store holds at most one admin; any
other transition updates the first user with the identifier and succeeds. -/
def updateUserRole (S : AppData) (userId : Str) (role : Role) : AppData × Bool :=
  match S.users.find? (fun u => u.id == userId) with
  | none => (S, false)
  | some u =>
    if u.role == Role.admin && role == Role.user && adminCount S ≤ 1 then (S, false)
    else
      match replaceFirst (fun v => v.id == userId) (fun v => { v with role := role }) S.users with
      | none => (S, false)
      | some us => ({ S with users := us }, true)

/-- The disabled condition of the currency delete button in the Settings
currency manager: deletion is offered only for codes no profile references. -/
def currencyDeleteDisabled (profiles : List Profile) (code : Str) : Bool :=
  profiles.any fun p => p.currencyCode == code

/-- The currency deletion reachable through the settings UI: a no-op while the
button is disabled, the store-level deleteCurrency otherwise. -/
def uiDeleteCurrency (S : AppData) (code : Str) : AppData :=
  if currencyDeleteDisabled S.profiles code then S else deleteCurrency S code

/-- Year divisibility rule backing date validity. -/
def isLeapYear (y : Nat) : Bool := (y % 4 == 0 && ¬ y % 100 == 0) || y % 400 == 0

/-- Days in a month of the proleptic Gregorian calendar. -/
def daysInMonth (y m : Nat) : Nat :=
  if m == 2 then (if isLeapYear y then 29 else 28)
  else if m == 4 || m == 6 || m == 9 || m == 11 then 30 else 31

/-- Decompose a ten-character YYYY-MM-DD string into its year, month and day
digit groups. -/
def dateParts (s : Str) : Option (Str × Str × Str) :=
  match s with
  | [y1, y2, y3, y4, h1, m1, m2, h2, d1, d2] =>
    if h1 == '-' ∧ h2 == '-' then some ([y1, y2, y3, y4], [m1, m2], [d1, d2]) else none
  | _ => none

/-- Is the string a calendar-valid YYYY-MM-DD date? -/
def isValidDate (s : Str) : Bool :=
  match dateParts s with
  | none => false
  | some (y, m, d) =>
    y.all Char.isDigit && m.all Char.isDigit && d.all Char.isDigit &&
    (let mv := digitsToNat m
     let dv := digitsToNat d
     1 ≤ mv && mv ≤ 12 && 1 ≤ dv && dv ≤ daysInMonth (digitsToNat y) mv)

/-- Model of new Date(s).toISOString() for the date-only ISO strings this
pipeline produces: a valid YYYY-MM-DD parses as UTC midnight; every other
input is modelled as the exception path (toISOString throws on an invalid
Date; other JavaScript date formats do not occur in the verified claims). -/
def jsDateISO (s : Str) : Option Str :=
  if isValidDate s then some (s ++ str "T00:00:00.000Z") else none

/-- The date.split with the letter T, first component. -/
def datePart (s : Str) : Str := s.takeWhile fun c => ¬ c == 'T'

/-- Double every quote character (the export-side escaping of descriptions). -/
def doubleQuotes : Str → Str
  | [] => []
  | c :: cs => if c == '"' then '"' :: '"' :: doubleQuotes cs else c :: doubleQuotes cs

/-- Wrap a field in quotes with inner quotes doubled. -/
def quoteField (d : Str) : Str := '"' :: (doubleQuotes d ++ ['"'])

/-- Drop one trailing quote when present. -/
def dropTrailingQuote (s : Str) : Str := if s.getLast? == some '"' then s.dropLast else s

/-- The import-side replace of the anchored quote pattern: remove one leading
and one trailing quote. -/
def stripOuterQuotes (s : Str) : Str :=
  dropTrailingQuote (match s with | '"' :: r => r | r => r)

/-- The import-side replace collapsing doubled quotes, leftmost first. -/
def undoubleQuotes : Str → Str
  | '"' :: '"' :: cs => '"' :: undoubleQuotes cs
  | c :: cs => c :: undoubleQuotes cs
  | [] => []

/-- The transactions of one profile (the profileTransactions filter of the
settings data-management component). -/
def profileTransactions (S : AppData) (pid : Str) : List Transaction :=
  S.transactions.filter fun t => t.profileId == pid

/-- The categories of one profile. -/
def profileCategories (S : AppData) (pid : Str) : List Category :=
  S.categories.filter fun c => c.profileId == pid

/-- The income sources of one profile. -/
def profileIncomeSources (S : AppData) (pid : Str) : List IncomeSource :=
  S.incomeSources.filter fun s => s.profileId == pid

/-- The header line written by handleExportCSV. -/
def exportHeaderLine : Str := str "date,description,amount,type,paymentMethod,category,source"

/-- One CSV row of handleExportCSV: day part of the date, quoted description,
printed amount, type, payment method, and the resolved category and source
names (empty when the lookup misses or does not apply). -/
def exportRow (cats : List Category) (srcs : List IncomeSource) (t : Transaction) : Str :=
  let category := if t.type == str "expense"
    then ((cats.find? fun c => some c.id == t.categoryId).map Category.name).getD []
    else []
  let source := if t.type == str "income"
    then ((srcs.find? fun s => some s.id == t.sourceId).map IncomeSource.name).getD []
    else []
  joinWith ',' [datePart t.date, quoteField t.description, printFrac t.amount,
                t.type, t.paymentMethod, category, source]

/-- handleExportCSV of the settings component, as the produced text. -/
def handleExportCSV (S : AppData) (pid : Str) : Str :=
  joinWith '\n' (exportHeaderLine ::
    (profileTransactions S pid).map
      (exportRow (profileCategories S pid) (profileIncomeSources S pid)))

/-- The required import columns. -/
def requiredHeaders : List Str :=
  [str "date", str "description", str "amount", str "type", str "paymentMethod"]

/-- Cell of a parsed row under a header name: the reduce of the import builds
an object keyed by header entries (a later duplicate header wins), so the
value is the cell at the last index carrying that name; `none` models an
undefined field (name absent, or the row shorter than the header). -/
def rowGet (header cells : List Str) (k : Str) : Option Str :=
  match (header.enum.filter fun p => p.2 == k).getLast? with
  | none => none
  | some p => cells.get? p.1

/-- JavaScript falsiness of an optional string field: undefined or empty. -/
def isFalsy : Option Str → Bool
  | none => true
  | some s => s == ([] : Str)

/-- A transaction value as built by the CSV import, before the profile and the
generated identifier are attached (Omit Transaction id profileId). -/
structure TxDraft where
  type : Str
  amount : Frac
  description : Str
  date : Str
  categoryId : Option Str
  sourceId : Option Str
  paymentMethod : Str
deriving DecidableEq

/-- Attach the target profile to a draft (the settings wrapper around
addMultipleTransactions); the import sets no attachments field. -/
def TxDraft.toNew (d : TxDraft) (pid : Str) : NewTransaction :=
  ⟨pid, d.type, d.amount, d.description, d.date, d.categoryId, d.sourceId,
   d.paymentMethod, none⟩

/-- Outcome of one data row of the import loop: skipped by a validation
check, accepted, or crashing in the row conversion (an unparseable date makes
toISOString throw; a row lacking the paymentMethod cell makes toLowerCase
throw on undefined). -/
inductive RowResult where
  | crash
  | skip
  | accept (d : TxDraft)
deriving DecidableEq

/-- One iteration of the import loop of handleImportCSV over a data line. -/
def parseRow (cats : List Category) (srcs : List IncomeSource)
    (header : List Str) (line : Str) : RowResult :=
  let cells := splitOnChar ',' line
  let rdate := rowGet header cells (str "date")
  let rdesc := rowGet header cells (str "description")
  let ramount := rowGet header cells (str "amount")
  let rtype := rowGet header cells (str "type")
  let amountVal := match ramount with
    | none => none
    | some a => jsParseFloat a
  if isFalsy rdate || isFalsy rdesc || amountVal.isNone || isFalsy rtype then .skip
  else
    let ty := lowerStr (rtype.getD [])
    let rcat := rowGet header cells (str "category")
    let rsrc := rowGet header cells (str "source")
    let category := cats.find? fun c =>
      match rcat with
      | none => false
      | some v => lowerStr c.name == lowerStr v
    let source := srcs.find? fun s =>
      match rsrc with
      | none => false
      | some v => lowerStr s.name == lowerStr v
    if ty == str "expense" && category.isNone then .skip
    else if ty == str "income" && source.isNone then .skip
    else
      match jsDateISO (rdate.getD []) with
      | none => .crash
      | some iso =>
        match rowGet header cells (str "paymentMethod") with
        | none => .crash
        | some pm =>
          .accept ⟨ty, amountVal.getD ⟨0, 1⟩,
                   undoubleQuotes (stripOuterQuotes (rdesc.getD [])), iso,
                   (if ty == str "expense" then category.map Category.id else none),
                   (if ty == str "income" then source.map IncomeSource.id else none),
                   lowerStr pm⟩

/-- The import loop over all data lines; `none` models the loop aborting with
an exception, in which case nothing is committed. -/
def parseRows (cats : List Category) (srcs : List IncomeSource)
    (header : List Str) : List Str → Option (List TxDraft)
  | [] => some []
  | l :: ls =>
    match parseRow cats srcs header l with
    | .crash => none
    | .skip => parseRows cats srcs header ls
    | .accept d => (parseRows cats srcs header ls).map (d :: ·)

/-- Outcome reported by handleImportCSV. -/
inductive ImportOutcome where
  | emptyFile
  | badHeader
  | noValidRows
  | imported (n : Nat)
deriving DecidableEq

/-- The non-blank lines of the import text. -/
def importLines (text : Str) : List Str :=
  (splitOnChar '\n' text).filter fun l => ¬ trimStr l == ([] : Str)

/-- The parsed (trimmed) header names of the first line. -/
def importHeader (l0 : Str) : List Str := (splitOnChar ',' l0).map trimStr

/-- handleImportCSV of the settings component, applied to the store: filter
blank lines, check the required header names, validate each data row, and
commit the accepted rows in one batch through addMultipleTransactions with the
target profile attached; `none` models an exception aborting the handler. -/
def handleImportCSV (S : AppData) (pid : Str) (text : Str) (gen : Nat → Str) :
    Option (AppData × ImportOutcome) :=
  match importLines text with
  | [] => some (S, .emptyFile)
  | [_] => some (S, .emptyFile)
  | l0 :: dataLines =>
    if ¬ requiredHeaders.all (fun h => (importHeader l0).contains h) then some (S, .badHeader)
    else
      match parseRows (profileCategories S pid) (profileIncomeSources S pid)
          (importHeader l0) dataLines with
      | none => none
      | some ds =>
        match ds with
        | [] => some (S, .noValidRows)
        | _ => some (addMultipleTransactions S (ds.map fun d => d.toNew pid) gen,
                     .imported ds.length)

/-- The row-level content of a transaction named by the round-trip property:
calendar day, description, amount, type, payment method, and the resolved
category or source name (resolved exactly as the export resolves it). -/
structure RowTuple where
  date : Str
  description : Str
  amount : Frac
  type : Str
  paymentMethod : Str
  name : Str
deriving DecidableEq

/-- The row tuple of a transaction relative to the category and source lists
of its profile. -/
def tupleOf (cats : List Category) (srcs : List IncomeSource) (t : Transaction) : RowTuple :=
  ⟨datePart t.date, t.description, t.amount, t.type, t.paymentMethod,
   if t.type == str "expense"
   then ((cats.find? fun c => some c.id == t.categoryId).map Category.name).getD []
   else if t.type == str "income"
   then ((srcs.find? fun s => some s.id == t.sourceId).map IncomeSource.name).getD []
   else []⟩

/-! Helper lemmas about the list-update patterns of the store. -/

/-- replaceFirst misses exactly when no element satisfies the predicate. -/
theorem replaceFirst_none {α : Type} (p : α → Bool) (f : α → α) (l : List α)
    (h : ∀ x ∈ l, ¬ p x) : replaceFirst p f l = none := by
  induction l with
  | nil => rfl
  | cons x xs ih =>
    simp only [replaceFirst]
    rw [if_neg (by simpa using h x (by simp)), ih (fun y hy => h y (by simp [hy]))]
    rfl

/-- replaceFirst rewrites the first matching element and nothing else. -/
theorem replaceFirst_decomp {α : Type} (p : α → Bool) (f : α → α)
    (pre : List α) (x : α) (post : List α)
    (hpre : ∀ y ∈ pre, ¬ p y) (hx : p x) :
    replaceFirst p f (pre ++ x :: post) = some (pre ++ f x :: post) := by
  induction pre with
  | nil => simp [replaceFirst, hx]
  | cons a as ih =>
    have ha : ¬ p a = true := by simpa using hpre a (by simp)
    simp [replaceFirst, ha, ih fun y hy => hpre y (by simp [hy])]

/-- find? over a decomposition whose front contains no match returns the
middle element when it matches. -/
theorem find?_decomp {α : Type} (p : α → Bool)
    (pre : List α) (x : α) (post : List α)
    (hpre : ∀ y ∈ pre, ¬ p y) (hx : p x) :
    List.find? p (pre ++ x :: post) = some x := by
  induction pre with
  | nil => simp [List.find?, hx]
  | cons a as ih =>
    have ha : p a = false := by simpa using hpre a (by simp)
    simp [List.find?_cons, ha, ih fun y hy => hpre y (by simp [hy])]

/-- C6: addUser appends exactly one user, built from the given email,
password hash and generated identifier; its role is Admin exactly when the
store held no users at the moment of the call, and User otherwise. -/
theorem c6_first_user_admin (S : AppData) (email pw id : Str) :
    (addUser S email pw id).1 =
      { S with users := S.users ++ [(addUser S email pw id).2] } ∧
    (addUser S email pw id).2 =
      ⟨id, email, pw, if S.users = [] then Role.admin else Role.user⟩ ∧
    ((addUser S email pw id).2.role = Role.admin ↔ S.users = []) := by
  refine ⟨rfl, ?_, ?_⟩
  · simp only [addUser, List.length_eq_zero]
  · by_cases h : S.users = [] <;>
      simp [addUser, List.length_eq_zero, h]

/-- C9: updateTransaction is a complete no-op when no stored transaction
carries the given identifier; when the identifier occurs at exactly one
place, that transaction alone is replaced and every other part of the
snapshot is untouched. -/
theorem c9_updateTransaction_frame (S : AppData) (u : Transaction) :
    ((∀ t ∈ S.transactions, t.id ≠ u.id) → updateTransaction S u = S) ∧
    (∀ pre old post, S.transactions = pre ++ old :: post → old.id = u.id →
      (∀ t ∈ pre, t.id ≠ u.id) → (∀ t ∈ post, t.id ≠ u.id) →
      updateTransaction S u = { S with transactions := pre ++ u :: post }) := by
  constructor
  · intro h
    have hm : S.transactions.map (fun t => if t.id == u.id then u else t) = S.transactions := by
      conv_rhs => rw [show S.transactions = S.transactions.map id from
        (List.map_id S.transactions).symm]
      refine List.map_congr_left fun t ht => ?_
      simp [h t ht]
    unfold updateTransaction
    rw [hm]
  · intro pre old post hdec hold hpre hpost
    have hmpre : pre.map (fun t => if t.id == u.id then u else t) = pre := by
      conv_rhs => rw [show pre = pre.map id from (List.map_id pre).symm]
      refine List.map_congr_left fun t ht => ?_
      simp [hpre t ht]
    have hmpost : post.map (fun t => if t.id == u.id then u else t) = post := by
      conv_rhs => rw [show post = post.map id from (List.map_id post).symm]
      refine List.map_congr_left fun t ht => ?_
      simp [hpost t ht]
    unfold updateTransaction
    rw [hdec, List.map_append, List.map_cons, hmpre, hmpost, if_pos (by simp [hold])]

/-- Closed instance of C9: on a concrete store, updating with an absent
identifier changes nothing, and updating an existing identifier replaces
exactly that transaction. -/
theorem c9_updateTransaction_frame_witness :
    updateTransaction
        ⟨[], [], [⟨str "t1", str "p1", str "expense", ⟨1, 1⟩, str "d", str "2024-01-01",
                   none, none, str "cash", none⟩], [], [], []⟩
        ⟨str "t9", str "p1", str "expense", ⟨2, 1⟩, str "e", str "2024-01-02",
         none, none, str "cash", none⟩ =
      ⟨[], [], [⟨str "t1", str "p1", str "expense", ⟨1, 1⟩, str "d", str "2024-01-01",
                 none, none, str "cash", none⟩], [], [], []⟩ ∧
    updateTransaction
        ⟨[], [], [⟨str "t1", str "p1", str "expense", ⟨1, 1⟩, str "d", str "2024-01-01",
                   none, none, str "cash", none⟩], [], [], []⟩
        ⟨str "t1", str "p1", str "expense", ⟨2, 1⟩, str "e", str "2024-01-02",
         none, none, str "cash", none⟩ =
      ⟨[], [], [⟨str "t1", str "p1", str "expense", ⟨2, 1⟩, str "e", str "2024-01-02",
                 none, none, str "cash", none⟩], [], [], []⟩ := by
  constructor
  · exact (c9_updateTransaction_frame _ _).1 (by decide)
  · exact (c9_updateTransaction_frame _
      ⟨str "t1", str "p1", str "expense", ⟨2, 1⟩, str "e", str "2024-01-02",
       none, none, str "cash", none⟩).2 []
      ⟨str "t1", str "p1", str "expense", ⟨1, 1⟩, str "d", str "2024-01-01",
       none, none, str "cash", none⟩ [] (by decide) (by decide)
      (by decide) (by decide)

/-- C10: resetPassword on an email with no case-insensitive match returns
false and leaves the whole store unchanged; on a hit it returns true and
rewrites only the passwordHash of the first matching user, keeping that
user's identifier, email and role and every other collection intact. -/
theorem c10_resetPassword_atomic (S : AppData) (email : Str) :
    ((∀ u ∈ S.users, lowerStr u.email ≠ lowerStr email) →
       resetPassword S email = (S, false)) ∧
    (∀ pre u post, S.users = pre ++ u :: post →
       (∀ v ∈ pre, lowerStr v.email ≠ lowerStr email) →
       lowerStr u.email = lowerStr email →
       resetPassword S email =
         ({ S with users :=
             pre ++ { u with passwordHash := simpleHash (str "password123") } :: post },
          true)) := by
  constructor
  · intro h
    unfold resetPassword
    rw [replaceFirst_none _ _ _ (by intro x hx; simp [h x hx])]
  · intro pre u post hdec hpre hu
    unfold resetPassword
    rw [hdec, replaceFirst_decomp _ _ pre u post
      (by intro y hy; simp [hpre y hy]) (by simp [hu])]

/-- Closed instance of C10: on a concrete two-user store, an unknown email is
rejected without changes and a known email (matched case-insensitively)
rewrites exactly that user's stored hash. -/
theorem c10_resetPassword_atomic_witness :
    resetPassword
        ⟨[⟨str "u1", str "A@x.com", str "h1", Role.admin⟩], [], [], [], [], []⟩
        (str "zz@x.com") =
      (⟨[⟨str "u1", str "A@x.com", str "h1", Role.admin⟩], [], [], [], [], []⟩, false) ∧
    resetPassword
        ⟨[⟨str "u1", str "A@x.com", str "h1", Role.admin⟩], [], [], [], [], []⟩
        (str "a@X.COM") =
      (⟨[⟨str "u1", str "A@x.com", simpleHash (str "password123"), Role.admin⟩],
        [], [], [], [], []⟩, true) := by
  constructor
  · exact (c10_resetPassword_atomic _ _).1 (by decide)
  · exact (c10_resetPassword_atomic _ _).2 []
      ⟨str "u1", str "A@x.com", str "h1", Role.admin⟩ [] (by decide)
      (by decide) (by decide)

/-- C2: with the store decomposed around the (unique) user carrying the acted
identifier, updateUserRole rejects an Admin-to-User transition while the
store holds exactly one admin, leaving everything unchanged; with two or more
admins the demotion succeeds and rewrites exactly that user's role; and every
transition other than Admin-to-User succeeds unconditionally, rewriting
exactly that user's role. -/
theorem c2_last_admin_guard (S : AppData) (u : User) (pre post : List User)
    (hdec : S.users = pre ++ u :: post) (hpre : ∀ v ∈ pre, v.id ≠ u.id) :
    (u.role = Role.admin → adminCount S = 1 →
       updateUserRole S u.id Role.user = (S, false)) ∧
    (u.role = Role.admin → 2 ≤ adminCount S →
       updateUserRole S u.id Role.user =
         ({ S with users := pre ++ { u with role := Role.user } :: post }, true)) ∧
    (∀ r : Role, (u.role = Role.admin ∧ r = Role.user → False) →
       updateUserRole S u.id r =
         ({ S with users := pre ++ { u with role := r } :: post }, true)) := by
  have hfind : S.users.find? (fun v => v.id == u.id) = some u := by
    rw [hdec]
    exact find?_decomp _ pre u post (by intro y hy; simp [hpre y hy]) (by simp)
  have hrepl : ∀ r : Role,
      replaceFirst (fun v => v.id == u.id) (fun v => { v with role := r }) S.users =
        some (pre ++ { u with role := r } :: post) := by
    intro r
    rw [hdec]
    exact replaceFirst_decomp _ _ pre u post (by intro y hy; simp [hpre y hy]) (by simp)
  refine ⟨?_, ?_, ?_⟩
  · intro hrole hcount
    unfold updateUserRole
    simp only [hfind]
    rw [if_pos (by simp [hrole, hcount])]
  · intro hrole hcount
    unfold updateUserRole
    simp only [hfind]
    have hg : ¬ ((u.role == Role.admin && Role.user == Role.user &&
        decide (adminCount S ≤ 1)) = true) := by
      simp [hrole]
      omega
    rw [if_neg hg]
    simp only [hrepl Role.user]
  · intro r hnot
    unfold updateUserRole
    simp only [hfind]
    have hg : ¬ ((u.role == Role.admin && r == Role.user &&
        decide (adminCount S ≤ 1)) = true) := by
      intro hcontra
      simp only [Bool.and_eq_true, beq_iff_eq, decide_eq_true_eq] at hcontra
      exact hnot ⟨hcontra.1.1, hcontra.1.2⟩
    rw [if_neg hg]
    simp only [hrepl r]

/-- Closed instance of C2: the sole admin of a concrete store cannot be
demoted; with a second admin present the demotion succeeds; and a promotion
of a plain user succeeds. -/
theorem c2_last_admin_guard_witness :
    updateUserRole
        ⟨[⟨str "a", str "a@x", str "h", Role.admin⟩,
          ⟨str "b", str "b@x", str "h", Role.user⟩], [], [], [], [], []⟩
        (str "a") Role.user =
      (⟨[⟨str "a", str "a@x", str "h", Role.admin⟩,
         ⟨str "b", str "b@x", str "h", Role.user⟩], [], [], [], [], []⟩, false) ∧
    updateUserRole
        ⟨[⟨str "a", str "a@x", str "h", Role.admin⟩,
          ⟨str "b", str "b@x", str "h", Role.admin⟩], [], [], [], [], []⟩
        (str "a") Role.user =
      (⟨[⟨str "a", str "a@x", str "h", Role.user⟩,
         ⟨str "b", str "b@x", str "h", Role.admin⟩], [], [], [], [], []⟩, true) ∧
    updateUserRole
        ⟨[⟨str "a", str "a@x", str "h", Role.admin⟩,
          ⟨str "b", str "b@x", str "h", Role.user⟩], [], [], [], [], []⟩
        (str "b") Role.admin =
      (⟨[⟨str "a", str "a@x", str "h", Role.admin⟩,
         ⟨str "b", str "b@x", str "h", Role.admin⟩], [], [], [], [], []⟩, true) := by
  refine ⟨?_, ?_, ?_⟩
  · exact (c2_last_admin_guard _ ⟨str "a", str "a@x", str "h", Role.admin⟩ []
      [⟨str "b", str "b@x", str "h", Role.user⟩] (by decide) (by decide)).1
      (by decide) (by decide)
  · exact (c2_last_admin_guard _ ⟨str "a", str "a@x", str "h", Role.admin⟩ []
      [⟨str "b", str "b@x", str "h", Role.admin⟩] (by decide) (by decide)).2.1
      (by decide) (by decide)
  · exact (c2_last_admin_guard _ ⟨str "b", str "b@x", str "h", Role.user⟩
      [⟨str "a", str "a@x", str "h", Role.admin⟩] [] (by decide) (by decide)).2.2
      Role.admin (by decide)

/-- C3: deleteUser removes the user with the given identifier, exactly the
profiles owned by it, and exactly the transactions, categories and income
sources whose profileId is among the removed profiles; everything else,
including the currency list, is untouched. -/
theorem c3_deleteUser_cascade (S : AppData) (u : User) (_hu : u ∈ S.users) :
    u ∉ (deleteUser S u.id).users ∧
    (∀ v : User, v ∈ (deleteUser S u.id).users ↔ v ∈ S.users ∧ v.id ≠ u.id) ∧
    (∀ p : Profile, p ∈ (deleteUser S u.id).profiles ↔
       p ∈ S.profiles ∧ p.userId ≠ u.id) ∧
    (∀ t : Transaction, t ∈ (deleteUser S u.id).transactions ↔
       t ∈ S.transactions ∧ ¬ ∃ p, p ∈ S.profiles ∧ p.userId = u.id ∧ p.id = t.profileId) ∧
    (∀ c : Category, c ∈ (deleteUser S u.id).categories ↔
       c ∈ S.categories ∧ ¬ ∃ p, p ∈ S.profiles ∧ p.userId = u.id ∧ p.id = c.profileId) ∧
    (∀ s : IncomeSource, s ∈ (deleteUser S u.id).incomeSources ↔
       s ∈ S.incomeSources ∧ ¬ ∃ p, p ∈ S.profiles ∧ p.userId = u.id ∧ p.id = s.profileId) ∧
    (deleteUser S u.id).currencies = S.currencies := by
  have hmem : ∀ x : Str, (profileIdsOf S u.id).contains x = true ↔
      (∃ p, p ∈ S.profiles ∧ p.userId = u.id ∧ p.id = x) := by
    intro x
    rw [List.elem_iff]
    simp only [profileIdsOf, List.mem_map, List.mem_filter, beq_iff_eq]
    constructor
    · rintro ⟨p, ⟨hp, hpu⟩, hpx⟩
      exact ⟨p, hp, hpu, hpx⟩
    · rintro ⟨p, hp, hpu, hpx⟩
      exact ⟨p, ⟨hp, hpu⟩, hpx⟩
  refine ⟨?_, ?_, ?_, ?_, ?_, ?_, rfl⟩
  · intro hmem2
    have := (List.mem_filter.mp hmem2).2
    simp at this
  · intro v
    simp [deleteUser, List.mem_filter]
  · intro p
    simp [deleteUser, List.mem_filter]
  · intro t
    simp only [deleteUser, List.mem_filter, decide_eq_true_eq]
    rw [hmem t.profileId]
  · intro c
    simp only [deleteUser, List.mem_filter, decide_eq_true_eq]
    rw [hmem c.profileId]
  · intro s
    simp only [deleteUser, List.mem_filter, decide_eq_true_eq]
    rw [hmem s.profileId]

/-- Closed instance of C3: deleting one of two concrete users removes exactly
that user's profile and transaction and keeps the other user's data and the
currencies intact. -/
theorem c3_deleteUser_cascade_witness :
    deleteUser
        ⟨[⟨str "a", str "a@x", str "h", Role.admin⟩,
          ⟨str "b", str "b@x", str "h", Role.user⟩],
         [⟨str "pa", str "A", str "USD", str "a"⟩, ⟨str "pb", str "B", str "USD", str "b"⟩],
         [⟨str "t1", str "pa", str "expense", ⟨1, 1⟩, str "d", str "2024-01-01",
           none, none, str "cash", none⟩,
          ⟨str "t2", str "pb", str "expense", ⟨2, 1⟩, str "d", str "2024-01-01",
           none, none, str "cash", none⟩],
         [⟨str "ca", str "Food", str "i", none, str "pa"⟩,
          ⟨str "cb", str "Food", str "i", none, str "pb"⟩],
         [⟨str "sa", str "Salary", str "i", none, str "pa"⟩],
         [⟨str "USD", str "$", str "US Dollar"⟩]⟩
        (str "a") =
      ⟨[⟨str "b", str "b@x", str "h", Role.user⟩],
       [⟨str "pb", str "B", str "USD", str "b"⟩],
       [⟨str "t2", str "pb", str "expense", ⟨2, 1⟩, str "d", str "2024-01-01",
         none, none, str "cash", none⟩],
       [⟨str "cb", str "Food", str "i", none, str "pb"⟩],
       [],
       [⟨str "USD", str "$", str "US Dollar"⟩]⟩ ∧
    (⟨str "a", str "a@x", str "h", Role.admin⟩ : User) ∉
      (deleteUser
        ⟨[⟨str "a", str "a@x", str "h", Role.admin⟩,
          ⟨str "b", str "b@x", str "h", Role.user⟩],
         [⟨str "pa", str "A", str "USD", str "a"⟩, ⟨str "pb", str "B", str "USD", str "b"⟩],
         [], [], [], []⟩ (str "a")).users := by
  constructor
  · decide
  · exact (c3_deleteUser_cascade _ ⟨str "a", str "a@x", str "h", Role.admin⟩
      (by decide)).1

/-- C5 as frozen is refuted on the code: in this concrete store a profile
references the currency USD, and the store-level deleteCurrency nevertheless
removes it (the snapshot changes). -/
theorem c5_deleteCurrency_counterexample :
    (∃ p, p ∈ (⟨[], [⟨str "p1", str "A", str "USD", str "u1"⟩], [], [], [],
        [⟨str "USD", str "$", str "US Dollar"⟩]⟩ : AppData).profiles ∧
       p.currencyCode = str "USD") ∧
    deleteCurrency
        ⟨[], [⟨str "p1", str "A", str "USD", str "u1"⟩], [], [], [],
         [⟨str "USD", str "$", str "US Dollar"⟩]⟩ (str "USD") ≠
      ⟨[], [⟨str "p1", str "A", str "USD", str "u1"⟩], [], [], [],
       [⟨str "USD", str "$", str "US Dollar"⟩]⟩ := by
  constructor
  · decide
  · decide

/-- C5 amended: the store-level deleteCurrency removes every currency with
the given code unconditionally, touching nothing else; the reference guard
lives only in the settings UI, whose delete control is disabled for a code
referenced by some profile, so the UI-guarded deletion is a no-op exactly
while a reference exists. -/
theorem c5_deleteCurrency_guard (S : AppData) (code : Str) :
    ((∃ p, p ∈ S.profiles ∧ p.currencyCode = code) →
       uiDeleteCurrency S code = S) ∧
    ((∀ p ∈ S.profiles, p.currencyCode ≠ code) →
       uiDeleteCurrency S code = deleteCurrency S code) ∧
    (∀ cur : Currency, cur ∈ (deleteCurrency S code).currencies ↔
       cur ∈ S.currencies ∧ cur.code ≠ code) ∧
    (deleteCurrency S code).users = S.users ∧
    (deleteCurrency S code).profiles = S.profiles ∧
    (deleteCurrency S code).transactions = S.transactions ∧
    (deleteCurrency S code).categories = S.categories ∧
    (deleteCurrency S code).incomeSources = S.incomeSources := by
  refine ⟨?_, ?_, ?_, rfl, rfl, rfl, rfl, rfl⟩
  · rintro ⟨p, hp, hcode⟩
    unfold uiDeleteCurrency
    rw [if_pos]
    unfold currencyDeleteDisabled
    rw [List.any_eq_true]
    exact ⟨p, hp, by simp [hcode]⟩
  · intro h
    unfold uiDeleteCurrency
    rw [if_neg]
    unfold currencyDeleteDisabled
    rw [List.any_eq_true]
    rintro ⟨p, hp, hcode⟩
    exact h p hp (by simpa using hcode)
  · intro cur
    simp [deleteCurrency, List.mem_filter]

/-- Closed instance of the amended C5: in a concrete store the UI-guarded
deletion of a referenced code is a no-op, the guarded deletion of an
unreferenced code delegates to the store filter, and the store filter removes
exactly the matching code. -/
theorem c5_deleteCurrency_guard_witness :
    uiDeleteCurrency
        ⟨[], [⟨str "p1", str "A", str "USD", str "u1"⟩], [], [], [],
         [⟨str "USD", str "$", str "US Dollar"⟩]⟩ (str "USD") =
      ⟨[], [⟨str "p1", str "A", str "USD", str "u1"⟩], [], [], [],
       [⟨str "USD", str "$", str "US Dollar"⟩]⟩ ∧
    uiDeleteCurrency
        ⟨[], [⟨str "p1", str "A", str "USD", str "u1"⟩], [], [], [],
         [⟨str "USD", str "$", str "US Dollar"⟩, ⟨str "EUR", str "E", str "Euro"⟩]⟩
        (str "EUR") =
      deleteCurrency
        ⟨[], [⟨str "p1", str "A", str "USD", str "u1"⟩], [], [], [],
         [⟨str "USD", str "$", str "US Dollar"⟩, ⟨str "EUR", str "E", str "Euro"⟩]⟩
        (str "EUR") := by
  constructor
  · exact (c5_deleteCurrency_guard _ _).1
      ⟨⟨str "p1", str "A", str "USD", str "u1"⟩, by decide, by decide⟩
  · exact (c5_deleteCurrency_guard _ _).2.1 (by decide)

/-! Helper lemmas for the freshness of seeded identifiers. -/

/-- Every list starts with itself. -/
theorem startsWith_refl (u : Str) : startsWith u u = true := by
  induction u with
  | nil => rfl
  | cons a as ih => simp [startsWith, ih]

/-- A list occurs inside anything that ends with it. -/
theorem occursIn_suffix (p u : Str) : occursIn u (p ++ u) = true := by
  induction p with
  | nil =>
    cases u with
    | nil => rfl
    | cons a as => simp [occursIn, startsWith_refl]
  | cons a ps ih => simp [occursIn, ih]

/-- A seeded identifier prefix-dash-uuid determines its uuid once the uuid
length is fixed. -/
theorem dash_suffix_inj (p1 u1 p2 u2 : Str) (hlen : u1.length = u2.length)
    (h : p1 ++ '-' :: u1 = p2 ++ '-' :: u2) : u1 = u2 := by
  have htot := congrArg List.length h
  simp only [List.length_append, List.length_cons] at htot
  have hp : p1.length = p2.length := by omega
  have := (List.append_inj h hp).2
  simpa using this

/-- The last L characters of a list. -/
def suffixN (L : Nat) (s : Str) : Str := s.drop (s.length - L)

/-- suffixN recovers the uuid of a seeded identifier. -/
theorem suffixN_dash (p u : Str) (L : Nat) (h : u.length = L) :
    suffixN L (p ++ '-' :: u) = u := by
  unfold suffixN
  have : (p ++ '-' :: u).length - L = (p ++ ['-']).length := by
    simp [List.length_append, h]
    omega
  rw [this, show p ++ '-' :: u = (p ++ ['-']) ++ u by simp, List.drop_left]

/-- The first components of an enumerated list, mapped. -/
theorem enum_map_fst_comp {α β : Type} (l : List α) (f : Nat → β) :
    l.enum.map (fun p => f p.1) = (List.range l.length).map f := by
  rw [show (fun p : Nat × α => f p.1) = f ∘ Prod.fst from rfl, ← List.map_map,
    List.enum_map_fst]

/-- The uuids drawn for one template family. -/
def uuidList (f : Nat → Str) (k : Nat) : List Str := (List.range k).map f

/-- Every identifier already present in a store snapshot. -/
def oldIds (S : AppData) : List Str :=
  S.users.map User.id ++ S.profiles.map Profile.id ++ S.transactions.map Transaction.id ++
  S.categories.map Category.id ++ S.incomeSources.map IncomeSource.id

/-- The uuids drawn by one addProfile call. -/
def seedUuids (cu su : Nat → Str) : List Str :=
  uuidList cu DEFAULT_CATEGORIES.length ++ uuidList su DEFAULT_INCOME_SOURCES.length

/-- C8: every addProfile call appends a non-empty batch of default categories
and a non-empty batch of default income sources, each scoped to the new
profile; assuming the injected uuids behave as fresh uuids do (pairwise
distinct, of one common length, and not occurring inside any identifier
already stored), all the seeded identifiers of two successive calls are
pairwise distinct and distinct from every identifier already in the store,
even though the two profiles are seeded from identical templates. -/
theorem c8_profile_seeding
    (S : AppData) (uid1 nm1 cc1 pid1 : Str) (cu1 su1 : Nat → Str)
    (uid2 nm2 cc2 pid2 : Str) (cu2 su2 : Nat → Str) (L : Nat)
    (hL : ∀ u ∈ seedUuids cu1 su1 ++ seedUuids cu2 su2, u.length = L)
    (hnd : (seedUuids cu1 su1 ++ seedUuids cu2 su2).Nodup)
    (hfresh : ∀ u ∈ seedUuids cu1 su1 ++ seedUuids cu2 su2,
       ∀ old ∈ oldIds S, occursIn u old = false) :
    ∃ newCats1 newSrcs1 newCats2 newSrcs2,
      (addProfile S uid1 nm1 cc1 pid1 cu1 su1).1.categories = S.categories ++ newCats1 ∧
      (addProfile S uid1 nm1 cc1 pid1 cu1 su1).1.incomeSources = S.incomeSources ++ newSrcs1 ∧
      (addProfile (addProfile S uid1 nm1 cc1 pid1 cu1 su1).1
          uid2 nm2 cc2 pid2 cu2 su2).1.categories
        = S.categories ++ newCats1 ++ newCats2 ∧
      (addProfile (addProfile S uid1 nm1 cc1 pid1 cu1 su1).1
          uid2 nm2 cc2 pid2 cu2 su2).1.incomeSources
        = S.incomeSources ++ newSrcs1 ++ newSrcs2 ∧
      newCats1 ≠ [] ∧ newSrcs1 ≠ [] ∧ newCats2 ≠ [] ∧ newSrcs2 ≠ [] ∧
      (∀ c ∈ newCats1, c.profileId = pid1) ∧ (∀ s ∈ newSrcs1, s.profileId = pid1) ∧
      (∀ c ∈ newCats2, c.profileId = pid2) ∧ (∀ s ∈ newSrcs2, s.profileId = pid2) ∧
      (newCats1.map Category.id ++ newSrcs1.map IncomeSource.id ++
       newCats2.map Category.id ++ newSrcs2.map IncomeSource.id).Nodup ∧
      (∀ i ∈ newCats1.map Category.id ++ newSrcs1.map IncomeSource.id ++
            newCats2.map Category.id ++ newSrcs2.map IncomeSource.id,
         i ∉ oldIds S) := by
  have keyC : ∀ (pid : Str) (f : Nat → Str),
      ((DEFAULT_CATEGORIES.enum.map fun p =>
          (⟨pid ++ '-' :: f p.1, p.2.name, p.2.icon, some true, pid⟩ : Category)).map
        Category.id)
        = (uuidList f DEFAULT_CATEGORIES.length).map (fun u => pid ++ '-' :: u) := by
    intro pid f
    rw [List.map_map, uuidList, List.map_map]
    exact enum_map_fst_comp DEFAULT_CATEGORIES (fun i => pid ++ '-' :: f i)
  have keyS : ∀ (pid : Str) (f : Nat → Str),
      ((DEFAULT_INCOME_SOURCES.enum.map fun p =>
          (⟨pid ++ '-' :: f p.1, p.2.name, p.2.icon, some true, pid⟩ : IncomeSource)).map
        IncomeSource.id)
        = (uuidList f DEFAULT_INCOME_SOURCES.length).map (fun u => pid ++ '-' :: u) := by
    intro pid f
    rw [List.map_map, uuidList, List.map_map]
    exact enum_map_fst_comp DEFAULT_INCOME_SOURCES (fun i => pid ++ '-' :: f i)
  have hback : ∀ (pid : Str) (us : List Str),
      (∀ u ∈ us, u.length = L) →
      (us.map (fun u => pid ++ '-' :: u)).map (suffixN L) = us := by
    intro pid us hus
    rw [List.map_map]
    conv_rhs => rw [show us = us.map id from (List.map_id us).symm]
    exact List.map_congr_left fun u hu => suffixN_dash pid u L (hus u hu)
  have hmemlen : ∀ u ∈ seedUuids cu1 su1 ++ seedUuids cu2 su2, u.length = L := hL
  refine ⟨DEFAULT_CATEGORIES.enum.map fun p =>
            ⟨pid1 ++ '-' :: cu1 p.1, p.2.name, p.2.icon, some true, pid1⟩,
          DEFAULT_INCOME_SOURCES.enum.map fun p =>
            ⟨pid1 ++ '-' :: su1 p.1, p.2.name, p.2.icon, some true, pid1⟩,
          DEFAULT_CATEGORIES.enum.map fun p =>
            ⟨pid2 ++ '-' :: cu2 p.1, p.2.name, p.2.icon, some true, pid2⟩,
          DEFAULT_INCOME_SOURCES.enum.map fun p =>
            ⟨pid2 ++ '-' :: su2 p.1, p.2.name, p.2.icon, some true, pid2⟩,
          rfl, rfl, ?_, ?_, ?_, ?_, ?_, ?_, ?_, ?_, ?_, ?_, ?_, ?_⟩
  · rfl
  · rfl
  · simp [DEFAULT_CATEGORIES]
  · simp [DEFAULT_INCOME_SOURCES]
  · simp [DEFAULT_CATEGORIES]
  · simp [DEFAULT_INCOME_SOURCES]
  · intro c hc
    simp only [List.mem_map] at hc
    obtain ⟨p, _, rfl⟩ := hc
    rfl
  · intro s hs
    simp only [List.mem_map] at hs
    obtain ⟨p, _, rfl⟩ := hs
    rfl
  · intro c hc
    simp only [List.mem_map] at hc
    obtain ⟨p, _, rfl⟩ := hc
    rfl
  · intro s hs
    simp only [List.mem_map] at hs
    obtain ⟨p, _, rfl⟩ := hs
    rfl
  · rw [keyC pid1 cu1, keyS pid1 su1, keyC pid2 cu2, keyS pid2 su2]
    refine List.Nodup.of_map (suffixN L) ?_
    rw [List.map_append, List.map_append, List.map_append]
    rw [hback pid1 (uuidList cu1 DEFAULT_CATEGORIES.length)
          (fun u hu => hL u (by simp [seedUuids, List.mem_append]; tauto)),
        hback pid1 (uuidList su1 DEFAULT_INCOME_SOURCES.length)
          (fun u hu => hL u (by simp [seedUuids, List.mem_append]; tauto)),
        hback pid2 (uuidList cu2 DEFAULT_CATEGORIES.length)
          (fun u hu => hL u (by simp [seedUuids, List.mem_append]; tauto)),
        hback pid2 (uuidList su2 DEFAULT_INCOME_SOURCES.length)
          (fun u hu => hL u (by simp [seedUuids, List.mem_append]; tauto))]
    simpa [seedUuids, List.append_assoc] using hnd
  · intro i hi hiold
    rw [keyC pid1 cu1, keyS pid1 su1, keyC pid2 cu2, keyS pid2 su2] at hi
    have : ∃ pid u, u ∈ seedUuids cu1 su1 ++ seedUuids cu2 su2 ∧ i = pid ++ '-' :: u := by
      simp only [List.mem_append, List.mem_map] at hi
      rcases hi with ((⟨u, hu, rfl⟩ | ⟨u, hu, rfl⟩) | ⟨u, hu, rfl⟩) | ⟨u, hu, rfl⟩
      · exact ⟨pid1, u, by simp [seedUuids, List.mem_append]; tauto, rfl⟩
      · exact ⟨pid1, u, by simp [seedUuids, List.mem_append]; tauto, rfl⟩
      · exact ⟨pid2, u, by simp [seedUuids, List.mem_append]; tauto, rfl⟩
      · exact ⟨pid2, u, by simp [seedUuids, List.mem_append]; tauto, rfl⟩
    obtain ⟨pid, u, hu, rfl⟩ := this
    have hocc := hfresh u hu _ hiold
    rw [show pid ++ '-' :: u = (pid ++ ['-']) ++ u by simp] at hocc
    rw [occursIn_suffix] at hocc
    exact Bool.noConfusion hocc

/-- Concrete uuid supply for the first seeded category family. -/
def c8cu1 : Nat → Str := fun i => 'a' :: natStr i

/-- Concrete uuid supply for the first seeded income-source family. -/
def c8su1 : Nat → Str := fun i => 'b' :: natStr i

/-- Concrete uuid supply for the second seeded category family. -/
def c8cu2 : Nat → Str := fun i => 'c' :: natStr i

/-- Concrete uuid supply for the second seeded income-source family. -/
def c8su2 : Nat → Str := fun i => 'd' :: natStr i

/-- Closed instance of C8: two profile creations on the fresh store, with
concrete distinct equal-length uuids, seed non-empty scoped default sets
whose identifiers are pairwise distinct and absent from the store. -/
theorem c8_profile_seeding_witness :
    ∃ newCats1 newSrcs1 newCats2 newSrcs2,
      (addProfile initialData (str "u1") (str "Personal") (str "USD") (str "p1")
          c8cu1 c8su1).1.categories = initialData.categories ++ newCats1 ∧
      (addProfile initialData (str "u1") (str "Personal") (str "USD") (str "p1")
          c8cu1 c8su1).1.incomeSources = initialData.incomeSources ++ newSrcs1 ∧
      (addProfile (addProfile initialData (str "u1") (str "Personal") (str "USD") (str "p1")
          c8cu1 c8su1).1 (str "u2") (str "Work") (str "USD") (str "p2")
          c8cu2 c8su2).1.categories
        = initialData.categories ++ newCats1 ++ newCats2 ∧
      (addProfile (addProfile initialData (str "u1") (str "Personal") (str "USD") (str "p1")
          c8cu1 c8su1).1 (str "u2") (str "Work") (str "USD") (str "p2")
          c8cu2 c8su2).1.incomeSources
        = initialData.incomeSources ++ newSrcs1 ++ newSrcs2 ∧
      newCats1 ≠ [] ∧ newSrcs1 ≠ [] ∧ newCats2 ≠ [] ∧ newSrcs2 ≠ [] ∧
      (∀ c ∈ newCats1, c.profileId = str "p1") ∧ (∀ s ∈ newSrcs1, s.profileId = str "p1") ∧
      (∀ c ∈ newCats2, c.profileId = str "p2") ∧ (∀ s ∈ newSrcs2, s.profileId = str "p2") ∧
      (newCats1.map Category.id ++ newSrcs1.map IncomeSource.id ++
       newCats2.map Category.id ++ newSrcs2.map IncomeSource.id).Nodup ∧
      (∀ i ∈ newCats1.map Category.id ++ newSrcs1.map IncomeSource.id ++
            newCats2.map Category.id ++ newSrcs2.map IncomeSource.id,
         i ∉ oldIds initialData) :=
  c8_profile_seeding initialData (str "u1") (str "Personal") (str "USD") (str "p1")
    c8cu1 c8su1 (str "u2") (str "Work") (str "USD") (str "p2") c8cu2 c8su2 2
    (by decide) (by decide) (by decide)

/-- A successful replaceFirst splits the list at the first match. -/
theorem replaceFirst_some_decomp {α : Type} (p : α → Bool) (f : α → α) :
    ∀ (l m : List α), replaceFirst p f l = some m →
      ∃ pre x post, l = pre ++ x :: post ∧ (∀ y ∈ pre, ¬ p y) ∧ p x ∧
        m = pre ++ f x :: post := by
  intro l
  induction l with
  | nil => intro m hm; simp [replaceFirst] at hm
  | cons a as ih =>
    intro m hm
    by_cases ha : p a
    · refine ⟨[], a, as, by simp, by simp, ha, ?_⟩
      simp [replaceFirst, ha] at hm
      simp [← hm]
    · simp only [replaceFirst, if_neg ha, Option.map_eq_some'] at hm
      obtain ⟨m', hm', rfl⟩ := hm
      obtain ⟨pre, x, post, hdec, hpre, hx, hm2⟩ := ih m' hm'
      exact ⟨a :: pre, x, post, by simp [hdec], by
        intro y hy
        rcases List.mem_cons.mp hy with rfl | hy2
        · exact ha
        · exact hpre y hy2, hx, by simp [hm2]⟩

/-- A list whose filtered part around one element has two or more entries has
a matching element away from the middle one. -/
theorem two_le_filter_exists {α : Type} (p : α → Bool) (pre post : List α) (x : α)
    (h : 2 ≤ (List.filter p (pre ++ x :: post)).length) :
    ∃ w, w ∈ pre ++ post ∧ p w := by
  rw [List.filter_append, List.length_append, List.filter_cons] at h
  have hlen : 1 ≤ (List.filter p pre).length + (List.filter p post).length := by
    by_cases hx : p x
    · rw [if_pos hx] at h
      simp at h
      omega
    · rw [if_neg hx] at h
      omega
  have hne : 0 < (List.filter p pre ++ List.filter p post).length := by
    rw [List.length_append]
    omega
  obtain ⟨w, hw⟩ := List.exists_mem_of_length_pos hne
  rcases List.mem_append.mp hw with hw2 | hw2
  · have := List.mem_filter.mp hw2
    exact ⟨w, List.mem_append.mpr (Or.inl this.1), this.2⟩
  · have := List.mem_filter.mp hw2
    exact ⟨w, List.mem_append.mpr (Or.inr this.1), this.2⟩

/-- The store states reachable from the fresh store through the public
operations of useAppData; the Boolean index records whether deleteUser steps
are allowed on the trace. -/
inductive Reachable : Bool → AppData → Prop where
  | init (b : Bool) : Reachable b initialData
  | step_addUser {b : Bool} {S : AppData} (h : Reachable b S) (email pw id : Str) :
      Reachable b (addUser S email pw id).1
  | step_addProfile {b : Bool} {S : AppData} (h : Reachable b S)
      (userId nm cc pid : Str) (cu su : Nat → Str) :
      Reachable b (addProfile S userId nm cc pid cu su).1
  | step_addTransaction {b : Bool} {S : AppData} (h : Reachable b S)
      (t : NewTransaction) (id : Str) : Reachable b (addTransaction S t id)
  | step_addMultipleTransactions {b : Bool} {S : AppData} (h : Reachable b S)
      (ts : List NewTransaction) (gen : Nat → Str) :
      Reachable b (addMultipleTransactions S ts gen)
  | step_updateTransaction {b : Bool} {S : AppData} (h : Reachable b S)
      (u : Transaction) : Reachable b (updateTransaction S u)
  | step_deleteTransaction {b : Bool} {S : AppData} (h : Reachable b S)
      (id : Str) : Reachable b (deleteTransaction S id)
  | step_addCategory {b : Bool} {S : AppData} (h : Reachable b S)
      (pid nm icon id : Str) : Reachable b (addCategory S pid nm icon id)
  | step_deleteCategory {b : Bool} {S : AppData} (h : Reachable b S)
      (id : Str) : Reachable b (deleteCategory S id)
  | step_addIncomeSource {b : Bool} {S : AppData} (h : Reachable b S)
      (pid nm icon id : Str) : Reachable b (addIncomeSource S pid nm icon id)
  | step_deleteIncomeSource {b : Bool} {S : AppData} (h : Reachable b S)
      (id : Str) : Reachable b (deleteIncomeSource S id)
  | step_addCurrency {b : Bool} {S : AppData} (h : Reachable b S)
      (c : Currency) : Reachable b (addCurrency S c)
  | step_deleteCurrency {b : Bool} {S : AppData} (h : Reachable b S)
      (code : Str) : Reachable b (deleteCurrency S code)
  | step_updateProfile {b : Bool} {S : AppData} (h : Reachable b S)
      (p : Profile) : Reachable b (updateProfile S p)
  | step_deleteProfile {b : Bool} {S : AppData} (h : Reachable b S)
      (pid : Str) : Reachable b (deleteProfile S pid)
  | step_resetPassword {b : Bool} {S : AppData} (h : Reachable b S)
      (email : Str) : Reachable b (resetPassword S email).1
  | step_updateUserRole {b : Bool} {S : AppData} (h : Reachable b S)
      (uid : Str) (r : Role) : Reachable b (updateUserRole S uid r).1
  | step_deleteUser {S : AppData} (h : Reachable true S) (uid : Str) :
      Reachable true (deleteUser S uid)

/-- The amended C1 invariant: along every trace of public operations that
never uses deleteUser, a non-empty user set always contains an admin.  The
first user is created as admin, later additions preserve the property, and
the role-change guard never demotes the last admin. -/
theorem c1_admin_invariant_no_delete (S : AppData) (h : Reachable false S) :
    S.users ≠ [] → ∃ u ∈ S.users, u.role = Role.admin := by
  have aux : ∀ (b : Bool) (T : AppData), Reachable b T → b = false →
      T.users ≠ [] → ∃ u ∈ T.users, u.role = Role.admin := by
    intro b T hT
    induction hT with
    | init b => intro _ hne; exact absurd rfl hne
    | step_addUser h email pw id ih =>
      intro hb _hne
      rename_i S
      by_cases hS : S.users = []
      · refine ⟨(addUser S email pw id).2, by simp [addUser], ?_⟩
        simp [addUser, hS]
      · obtain ⟨w, hw, hrole⟩ := ih hb hS
        exact ⟨w, List.mem_append.mpr (Or.inl hw), hrole⟩
    | step_addProfile h userId nm cc pid cu su ih => exact ih
    | step_addTransaction h t id ih => exact ih
    | step_addMultipleTransactions h ts gen ih => exact ih
    | step_updateTransaction h u ih => exact ih
    | step_deleteTransaction h id ih => exact ih
    | step_addCategory h pid nm icon id ih => exact ih
    | step_deleteCategory h id ih => exact ih
    | step_addIncomeSource h pid nm icon id ih => exact ih
    | step_deleteIncomeSource h id ih => exact ih
    | step_addCurrency h c ih => exact ih
    | step_deleteCurrency h code ih => exact ih
    | step_updateProfile h p ih => exact ih
    | step_deleteProfile h pid ih => exact ih
    | step_resetPassword h email ih =>
      intro hb hne
      rename_i S
      rcases hrep : replaceFirst (fun u => lowerStr u.email == lowerStr email)
          (fun u => { u with passwordHash := simpleHash (str "password123") })
          S.users with _ | us
      · have heq : (resetPassword S email).1 = S := by
          unfold resetPassword
          rw [hrep]
        rw [heq] at hne ⊢
        exact ih hb hne
      · have husers : (resetPassword S email).1.users = us := by
          unfold resetPassword
          rw [hrep]
        obtain ⟨pre, x, post, hdec, hpre, hx, hm⟩ :=
          replaceFirst_some_decomp _ _ _ _ hrep
        have hSne : S.users ≠ [] := by rw [hdec]; simp
        obtain ⟨w, hw, hrole⟩ := ih hb hSne
        rw [husers, hm]
        rw [hdec] at hw
        rcases List.mem_append.mp hw with hw2 | hw2
        · exact ⟨w, by simp [hw2], hrole⟩
        · rcases List.mem_cons.mp hw2 with rfl | hw3
          · exact ⟨{ w with passwordHash := simpleHash (str "password123") },
              by simp, hrole⟩
          · exact ⟨w, by simp [hw3], hrole⟩
    | step_updateUserRole h uid r ih =>
      intro hb hne
      rename_i S
      rcases hfind : S.users.find? (fun v => v.id == uid) with _ | u
      · have heq : (updateUserRole S uid r).1 = S := by
          unfold updateUserRole
          simp only [hfind]
        rw [heq] at hne ⊢
        exact ih hb hne
      · by_cases hguard :
          (u.role == Role.admin && r == Role.user && decide (adminCount S ≤ 1)) = true
        · have heq : (updateUserRole S uid r).1 = S := by
            unfold updateUserRole
            simp only [hfind]
            rw [if_pos hguard]
          rw [heq] at hne ⊢
          exact ih hb hne
        · rcases hrep : replaceFirst (fun v => v.id == uid)
              (fun v => { v with role := r }) S.users with _ | us
          · have heq : (updateUserRole S uid r).1 = S := by
              unfold updateUserRole
              simp only [hfind]
              rw [if_neg hguard]
              simp only [hrep]
            rw [heq] at hne ⊢
            exact ih hb hne
          · have husers : (updateUserRole S uid r).1.users = us := by
              unfold updateUserRole
              simp only [hfind]
              rw [if_neg hguard]
              simp only [hrep]
            obtain ⟨pre, x, post, hdec, hpre, hx, hm⟩ :=
              replaceFirst_some_decomp _ _ _ _ hrep
            have hux : u = x := by
              have h1 : S.users.find? (fun v => v.id == uid) = some x := by
                rw [hdec]
                exact find?_decomp _ pre x post hpre hx
              rw [hfind] at h1
              exact Option.some_inj.mp h1
            rw [husers, hm]
            cases r with
            | admin => exact ⟨{ x with role := Role.admin }, by simp, rfl⟩
            | user =>
              have hg2 : ¬ u.role = Role.admin ∨ 2 ≤ adminCount S := by
                by_cases hrole : u.role = Role.admin
                · right
                  by_contra hlt
                  apply hguard
                  simp [hrole]
                  omega
                · exact Or.inl hrole
              rcases hg2 with hnotadmin | hcount
              · have hSne : S.users ≠ [] := by rw [hdec]; simp
                obtain ⟨w, hw, hrole⟩ := ih hb hSne
                rw [hdec] at hw
                rcases List.mem_append.mp hw with hw2 | hw2
                · exact ⟨w, by simp [hw2], hrole⟩
                · rcases List.mem_cons.mp hw2 with rfl | hw3
                  · exact absurd hrole (hux ▸ hnotadmin)
                  · exact ⟨w, by simp [hw3], hrole⟩
              · have hcount2 : 2 ≤
                    (List.filter (fun v => v.role == Role.admin)
                      (pre ++ x :: post)).length := by
                  unfold adminCount at hcount
                  rw [hdec] at hcount
                  exact hcount
                obtain ⟨w, hw, hrole⟩ :=
                  two_le_filter_exists _ pre post x hcount2
                rcases List.mem_append.mp hw with hw2 | hw2
                · exact ⟨w, by simp [hw2], by simpa using hrole⟩
                · exact ⟨w, by simp [hw2], by simpa using hrole⟩
    | step_deleteUser h uid ih => intro hb; exact absurd hb (by simp)
  exact aux false S h rfl

/-- The reachable store refuting C1 as frozen: create two users (the first
becomes the sole admin), then delete the admin through deleteUser. -/
def c1BadStore : AppData :=
  deleteUser
    (addUser (addUser initialData (str "a@x") (str "h1") (str "ida")).1
      (str "b@x") (str "h2") (str "idb")).1
    (str "ida")

/-- C1 as frozen is refuted on the code: this store is reachable from the
empty store by public operations, holds a user, and holds no admin, because
deleteUser carries no last-admin protection. -/
theorem c1_admin_invariant_counterexample :
    Reachable true c1BadStore ∧ c1BadStore.users ≠ [] ∧
    ∀ u ∈ c1BadStore.users, u.role ≠ Role.admin := by
  refine ⟨?_, by decide, by decide⟩
  exact Reachable.step_deleteUser
    (Reachable.step_addUser
      (Reachable.step_addUser (Reachable.init true) (str "a@x") (str "h1") (str "ida"))
      (str "b@x") (str "h2") (str "idb"))
    (str "ida")

/-- Closed instance of the amended C1: after one signup on the fresh store
the user set is non-empty, so the invariant yields an admin. -/
theorem c1_admin_invariant_no_delete_witness :
    ∃ u ∈ (addUser initialData (str "a@x") (str "h1") (str "ida")).1.users,
      u.role = Role.admin :=
  c1_admin_invariant_no_delete _
    (Reachable.step_addUser (Reachable.init false) (str "a@x") (str "h1") (str "ida"))
    (by decide)

/-- The draft carried by an accepted row outcome. -/
def RowResult.draftOf : RowResult → Option TxDraft
  | .accept d => some d
  | _ => none

/-- A data row whose date is missing, whose description is missing, whose
amount does not parse, or whose type is missing, is skipped. -/
theorem parseRow_basic_skip (cats : List Category) (srcs : List IncomeSource)
    (header : List Str) (l : Str)
    (h : isFalsy (rowGet header (splitOnChar ',' l) (str "date")) = true ∨
         isFalsy (rowGet header (splitOnChar ',' l) (str "description")) = true ∨
         (∀ a, rowGet header (splitOnChar ',' l) (str "amount") = some a →
            jsParseFloat a = none) ∨
         isFalsy (rowGet header (splitOnChar ',' l) (str "type")) = true) :
    parseRow cats srcs header l = .skip := by
  unfold parseRow
  have hcond : (isFalsy (rowGet header (splitOnChar ',' l) (str "date")) ||
      isFalsy (rowGet header (splitOnChar ',' l) (str "description")) ||
      (match rowGet header (splitOnChar ',' l) (str "amount") with
       | none => none
       | some a => jsParseFloat a : Option Frac).isNone ||
      isFalsy (rowGet header (splitOnChar ',' l) (str "type"))) = true := by
    rcases h with h | h | h | h
    · simp [h]
    · simp [h]
    · rcases hg : rowGet header (splitOnChar ',' l) (str "amount") with _ | a
      · simp
      · simp [h a hg]
    · simp [h]
  rw [if_pos hcond]

/-- An expense row whose category name resolves to no category of the target
profile is skipped. -/
theorem parseRow_expense_skip (cats : List Category) (srcs : List IncomeSource)
    (header : List Str) (l : Str)
    (hty : lowerStr ((rowGet header (splitOnChar ',' l) (str "type")).getD []) =
      str "expense")
    (hfind : cats.find? (fun c =>
        match rowGet header (splitOnChar ',' l) (str "category") with
        | none => false
        | some v => lowerStr c.name == lowerStr v) = none) :
    parseRow cats srcs header l = .skip := by
  unfold parseRow
  by_cases hcond : (isFalsy (rowGet header (splitOnChar ',' l) (str "date")) ||
      isFalsy (rowGet header (splitOnChar ',' l) (str "description")) ||
      (match rowGet header (splitOnChar ',' l) (str "amount") with
       | none => none
       | some a => jsParseFloat a : Option Frac).isNone ||
      isFalsy (rowGet header (splitOnChar ',' l) (str "type"))) = true
  · rw [if_pos hcond]
  · rw [if_neg hcond, if_pos (by rw [hty, hfind]; rfl)]

/-- An income row whose source name resolves to no income source of the
target profile is skipped. -/
theorem parseRow_income_skip (cats : List Category) (srcs : List IncomeSource)
    (header : List Str) (l : Str)
    (hty : lowerStr ((rowGet header (splitOnChar ',' l) (str "type")).getD []) =
      str "income")
    (hfind : srcs.find? (fun s =>
        match rowGet header (splitOnChar ',' l) (str "source") with
        | none => false
        | some v => lowerStr s.name == lowerStr v) = none) :
    parseRow cats srcs header l = .skip := by
  unfold parseRow
  by_cases hcond : (isFalsy (rowGet header (splitOnChar ',' l) (str "date")) ||
      isFalsy (rowGet header (splitOnChar ',' l) (str "description")) ||
      (match rowGet header (splitOnChar ',' l) (str "amount") with
       | none => none
       | some a => jsParseFloat a : Option Frac).isNone ||
      isFalsy (rowGet header (splitOnChar ',' l) (str "type"))) = true
  · rw [if_pos hcond]
  · rw [if_neg hcond,
        if_neg (by
          rw [hty, show (str "income" == str "expense") = false from by decide]
          simp),
        if_pos (by rw [hty, hfind]; rfl)]

/-- When no row crashes, the import loop returns exactly the accepted drafts
in row order. -/
theorem parseRows_no_crash (cats : List Category) (srcs : List IncomeSource)
    (header : List Str) (ls : List Str)
    (h : ∀ l ∈ ls, parseRow cats srcs header l ≠ .crash) :
    parseRows cats srcs header ls =
      some (ls.filterMap fun l => (parseRow cats srcs header l).draftOf) := by
  induction ls with
  | nil => rfl
  | cons l ls ih =>
    have hl := h l (by simp)
    rcases hp : parseRow cats srcs header l with _ | _ | d
    · exact absurd hp hl
    · simp [parseRows, hp, List.filterMap_cons, RowResult.draftOf,
        ih fun x hx => h x (by simp [hx])]
    · simp [parseRows, hp, List.filterMap_cons, RowResult.draftOf,
        ih fun x hx => h x (by simp [hx])]

/-- The length of a filterMap counts the elements on which the function
fires. -/
theorem length_filterMap_eq {α β : Type} (f : α → Option β) (l : List α) :
    (l.filterMap f).length = (l.filter fun a => (f a).isSome).length := by
  induction l with
  | nil => rfl
  | cons a as ih =>
    rcases hf : f a with _ | b
    · simp [List.filterMap_cons, List.filter_cons, hf, ih]
    · simp [List.filterMap_cons, List.filter_cons, hf, ih]

/-- Evaluation of handleImportCSV once the line split, the header check and
the row loop are known. -/
theorem handleImportCSV_eval (S : AppData) (pid : Str) (text : Str) (gen : Nat → Str)
    (l0 d1 : Str) (drest : List Str) (ds : List TxDraft)
    (hlines : importLines text = l0 :: d1 :: drest)
    (hheader : requiredHeaders.all (fun h => (importHeader l0).contains h) = true)
    (hrows : parseRows (profileCategories S pid) (profileIncomeSources S pid)
      (importHeader l0) (d1 :: drest) = some ds) :
    (ds = [] → handleImportCSV S pid text gen = some (S, ImportOutcome.noValidRows)) ∧
    (ds ≠ [] → handleImportCSV S pid text gen =
      some (addMultipleTransactions S (ds.map fun d => d.toNew pid) gen,
            ImportOutcome.imported ds.length)) := by
  unfold handleImportCSV
  rw [hlines]
  simp only [hheader, Bool.not_true, if_false, hrows]
  constructor
  · rintro rfl
    simp
  · intro hne
    cases ds with
    | nil => exact absurd rfl hne
    | cons d ds2 => simp

/-- C7: every data row with a missing date, missing description, unparseable
amount or missing type is skipped, as is an expense row whose category name
(or an income row whose source name) does not case-insensitively resolve in
the target profile, and the skips never abort the import; the committed batch
appends exactly one transaction per accepted row, leaving every other
collection unchanged, and a file with no accepted row commits nothing and
reports the no-valid-rows failure. -/
theorem c7_csv_validation_skip
    (S : AppData) (pid : Str) (text : Str) (gen : Nat → Str)
    (l0 d1 : Str) (drest : List Str)
    (hlines : importLines text = l0 :: d1 :: drest)
    (hheader : requiredHeaders.all (fun h => (importHeader l0).contains h) = true)
    (hnocrash : ∀ l ∈ d1 :: drest,
       parseRow (profileCategories S pid) (profileIncomeSources S pid)
         (importHeader l0) l ≠ .crash) :
    (∀ l ∈ d1 :: drest,
       (isFalsy (rowGet (importHeader l0) (splitOnChar ',' l) (str "date")) = true ∨
        isFalsy (rowGet (importHeader l0) (splitOnChar ',' l) (str "description")) = true ∨
        (∀ a, rowGet (importHeader l0) (splitOnChar ',' l) (str "amount") = some a →
           jsParseFloat a = none) ∨
        isFalsy (rowGet (importHeader l0) (splitOnChar ',' l) (str "type")) = true) →
       parseRow (profileCategories S pid) (profileIncomeSources S pid)
         (importHeader l0) l = .skip) ∧
    (∀ l ∈ d1 :: drest,
       lowerStr ((rowGet (importHeader l0) (splitOnChar ',' l) (str "type")).getD []) =
         str "expense" →
       (profileCategories S pid).find? (fun c =>
          match rowGet (importHeader l0) (splitOnChar ',' l) (str "category") with
          | none => false
          | some v => lowerStr c.name == lowerStr v) = none →
       parseRow (profileCategories S pid) (profileIncomeSources S pid)
         (importHeader l0) l = .skip) ∧
    (∀ l ∈ d1 :: drest,
       lowerStr ((rowGet (importHeader l0) (splitOnChar ',' l) (str "type")).getD []) =
         str "income" →
       (profileIncomeSources S pid).find? (fun s =>
          match rowGet (importHeader l0) (splitOnChar ',' l) (str "source") with
          | none => false
          | some v => lowerStr s.name == lowerStr v) = none →
       parseRow (profileCategories S pid) (profileIncomeSources S pid)
         (importHeader l0) l = .skip) ∧
    ((d1 :: drest).filterMap (fun l =>
        (parseRow (profileCategories S pid) (profileIncomeSources S pid)
          (importHeader l0) l).draftOf) = [] →
      handleImportCSV S pid text gen = some (S, ImportOutcome.noValidRows)) ∧
    (∀ d ds2, (d1 :: drest).filterMap (fun l =>
        (parseRow (profileCategories S pid) (profileIncomeSources S pid)
          (importHeader l0) l).draftOf) = d :: ds2 →
      ∃ S2, handleImportCSV S pid text gen =
          some (S2, ImportOutcome.imported (d :: ds2).length) ∧
        S2.transactions.length = S.transactions.length +
          ((d1 :: drest).filter fun l =>
            ((parseRow (profileCategories S pid) (profileIncomeSources S pid)
              (importHeader l0) l).draftOf).isSome).length ∧
        S2.users = S.users ∧ S2.profiles = S.profiles ∧
        S2.categories = S.categories ∧ S2.incomeSources = S.incomeSources ∧
        S2.currencies = S.currencies) := by
  refine ⟨?_, ?_, ?_, ?_, ?_⟩
  · intro l _ h
    exact parseRow_basic_skip _ _ _ _ h
  · intro l _ hty hfind
    exact parseRow_expense_skip _ _ _ _ hty hfind
  · intro l _ hty hfind
    exact parseRow_income_skip _ _ _ _ hty hfind
  · intro hfm
    exact (handleImportCSV_eval S pid text gen l0 d1 drest _ hlines hheader
      (parseRows_no_crash _ _ _ _ hnocrash)).1 hfm
  · intro d ds2 hfm
    have hrows := parseRows_no_crash (profileCategories S pid)
      (profileIncomeSources S pid) (importHeader l0) (d1 :: drest) hnocrash
    rw [hfm] at hrows
    have heval := (handleImportCSV_eval S pid text gen l0 d1 drest (d :: ds2)
      hlines hheader hrows).2 (by simp)
    refine ⟨addMultipleTransactions S ((d :: ds2).map fun x => x.toNew pid) gen,
      heval, ?_, rfl, rfl, rfl, rfl, rfl⟩
    have hlen : (d :: ds2).length =
        ((d1 :: drest).filter fun l =>
          ((parseRow (profileCategories S pid) (profileIncomeSources S pid)
            (importHeader l0) l).draftOf).isSome).length := by
      rw [← length_filterMap_eq, hfm]
    simp [addMultipleTransactions, List.length_append, List.length_map, ← hlen]

set_option maxRecDepth 40000

/-- Concrete store for the import example: one profile with one category and
one income source. -/
def c7Store : AppData :=
  ⟨[], [⟨str "p1", str "Personal", str "USD", str "u1"⟩], [],
   [⟨str "c1", str "Food", str "i", some true, str "p1"⟩],
   [⟨str "s1", str "Salary", str "i", some true, str "p1"⟩], []⟩

/-- Concrete five-row import file: rows two (unparseable amount) and four
(unknown category) are invalid, the other three are valid. -/
def c7Text : Str :=
  str "date,description,amount,type,paymentMethod,category,source\n2024-01-02,Lunch,3.25,expense,cash,Food,\n2024-01-03,Taxi,abc,expense,cash,Food,\n2024-01-04,Pay,100,income,bank,,Salary\n2024-01-05,Books,5,expense,cash,Nope,\n2024-01-06,Dinner,7.5,expense,cash,Food,"

/-- Identifier supply for the committed import batch. -/
def c7gen : Nat → Str := fun i => 'n' :: natStr i

/-- Closed instance of C7: the five-row file with two invalid rows imports
exactly three transactions into the concrete store, changing nothing else. -/
theorem c7_csv_validation_skip_witness :
    ∃ S2, handleImportCSV c7Store (str "p1") c7Text c7gen =
        some (S2, ImportOutcome.imported 3) ∧
      S2.transactions.length = c7Store.transactions.length + 3 ∧
      S2.users = c7Store.users ∧ S2.categories = c7Store.categories := by
  obtain ⟨S2, h1, h2, h3, _, h5, _, _⟩ :=
    (c7_csv_validation_skip c7Store (str "p1") c7Text c7gen
      (str "date,description,amount,type,paymentMethod,category,source")
      (str "2024-01-02,Lunch,3.25,expense,cash,Food,")
      [str "2024-01-03,Taxi,abc,expense,cash,Food,",
       str "2024-01-04,Pay,100,income,bank,,Salary",
       str "2024-01-05,Books,5,expense,cash,Nope,",
       str "2024-01-06,Dinner,7.5,expense,cash,Food,"]
      (by decide) (by decide) (by decide)).2.2.2.2
      ⟨str "expense", ⟨13, 4⟩, str "Lunch", str "2024-01-02T00:00:00.000Z",
       some (str "c1"), none, str "cash"⟩
      [⟨str "income", ⟨100, 1⟩, str "Pay", str "2024-01-04T00:00:00.000Z",
        none, some (str "s1"), str "bank"⟩,
       ⟨str "expense", ⟨15, 2⟩, str "Dinner", str "2024-01-06T00:00:00.000Z",
        some (str "c1"), none, str "cash"⟩]
      (by decide)
  rw [show ((List.filter (fun l =>
      ((parseRow (profileCategories c7Store (str "p1"))
        (profileIncomeSources c7Store (str "p1"))
        (importHeader (str "date,description,amount,type,paymentMethod,category,source"))
        l).draftOf).isSome)
      [str "2024-01-02,Lunch,3.25,expense,cash,Food,",
       str "2024-01-03,Taxi,abc,expense,cash,Food,",
       str "2024-01-04,Pay,100,income,bank,,Salary",
       str "2024-01-05,Books,5,expense,cash,Nope,",
       str "2024-01-06,Dinner,7.5,expense,cash,Food,"]).length = 3)
    from by decide] at h2
  exact ⟨S2, h1, h2, h3, h5⟩

/-! Digit-level lemmas: the decimal printer and the parser invert each
other. -/

/-- The fueled gcd agrees with Nat.gcd when the fuel covers the first
argument. -/
theorem gcdFuel_spec : ∀ (fuel m n : Nat), m < fuel → gcdFuel fuel m n = Nat.gcd m n := by
  intro fuel
  induction fuel with
  | zero => intro m n h; omega
  | succ f ih =>
    intro m n h
    cases m with
    | zero => simp [gcdFuel]
    | succ m2 =>
      rw [show gcdFuel (f + 1) (m2 + 1) n = gcdFuel f (n % (m2 + 1)) (m2 + 1) from rfl,
        ih _ _ (by have := Nat.mod_lt n (show 0 < m2 + 1 by omega); omega),
        Nat.gcd_succ]

/-- natGcd is Nat.gcd. -/
theorem natGcd_eq (m n : Nat) : natGcd m n = Nat.gcd m n :=
  gcdFuel_spec (m + 1) m n (Nat.lt_succ_self m)

/-- The digit accumulator is an append. -/
theorem natStrGo_append : ∀ (fuel n : Nat) (acc : Str),
    natStrGo fuel n acc = natStrGo fuel n [] ++ acc := by
  intro fuel
  induction fuel with
  | zero => intro n acc; rfl
  | succ f ih =>
    intro n acc
    by_cases h : n < 10
    · simp [natStrGo, h]
    · rw [show natStrGo (f + 1) n acc = natStrGo f (n / 10) (digitChar (n % 10) :: acc)
          from by simp [natStrGo, h],
        show natStrGo (f + 1) n [] = natStrGo f (n / 10) (digitChar (n % 10) :: [])
          from by simp [natStrGo, h],
        ih (n / 10) (digitChar (n % 10) :: acc),
        ih (n / 10) (digitChar (n % 10) :: [])]
      simp

/-- Enough fuel makes the digit printer fuel-independent. -/
theorem natStrGo_irrel : ∀ (f g n : Nat), n < 10 ^ f → n < 10 ^ g →
    0 < f → 0 < g → natStrGo f n [] = natStrGo g n [] := by
  intro f
  induction f with
  | zero => intro g n h; omega
  | succ f2 ih =>
    intro g n hf hg hfpos hgpos
    cases g with
    | zero => omega
    | succ g2 =>
      by_cases h : n < 10
      · simp [natStrGo, h]
      · have hf2 : n / 10 < 10 ^ f2 := by
          rw [Nat.div_lt_iff_lt_mul (by omega)]
          calc n < 10 ^ (f2 + 1) := hf
          _ = 10 ^ f2 * 10 := by ring
        have hg2 : n / 10 < 10 ^ g2 := by
          rw [Nat.div_lt_iff_lt_mul (by omega)]
          calc n < 10 ^ (g2 + 1) := hg
          _ = 10 ^ g2 * 10 := by ring
        have hf2pos : 0 < f2 := by
          by_contra hc
          have : f2 = 0 := by omega
          rw [this] at hf2
          simp at hf2
          omega
        have hg2pos : 0 < g2 := by
          by_contra hc
          have : g2 = 0 := by omega
          rw [this] at hg2
          simp at hg2
          omega
        rw [show natStrGo (f2 + 1) n [] = natStrGo f2 (n / 10) [digitChar (n % 10)]
            from by simp [natStrGo, h],
          show natStrGo (g2 + 1) n [] = natStrGo g2 (n / 10) [digitChar (n % 10)]
            from by simp [natStrGo, h],
          natStrGo_append f2, natStrGo_append g2, ih g2 (n / 10) hf2 hg2 hf2pos hg2pos]

/-- Every natural is below ten to its successor. -/
theorem lt_ten_pow_succ (n : Nat) : n < 10 ^ (n + 1) := by
  calc n < 2 ^ n := Nat.lt_two_pow n
  _ ≤ 2 ^ (n + 1) := Nat.pow_le_pow_right (by omega) (by omega)
  _ ≤ 10 ^ (n + 1) := Nat.pow_le_pow_left (by omega) (n + 1)

/-- The one-digit base case of the printer. -/
theorem natStr_lt_ten (n : Nat) (h : n < 10) : natStr n = [digitChar n] := by
  simp [natStr, natStrGo, h]

/-- The recursive step of the printer. -/
theorem natStr_ge_ten (n : Nat) (h : 10 ≤ n) :
    natStr n = natStr (n / 10) ++ [digitChar (n % 10)] := by
  have h1 : natStr n = natStrGo n (n / 10) [digitChar (n % 10)] := by
    simp [natStr, natStrGo, show ¬ n < 10 by omega]
  rw [h1, natStrGo_append]
  congr 1
  have hd1 : n / 10 < 10 ^ n := by
    calc n / 10 ≤ n := Nat.div_le_self n 10
    _ < 10 ^ n := by
      calc n < 2 ^ n := Nat.lt_two_pow n
      _ ≤ 10 ^ n := Nat.pow_le_pow_left (by omega) n
  exact natStrGo_irrel n (n / 10 + 1) (n / 10) hd1 (lt_ten_pow_succ (n / 10))
    (by omega) (by omega)

/-- The digit characters are digits. -/
theorem digitChar_isDigit (n : Nat) (h : n < 10) : (digitChar n).isDigit = true := by
  interval_cases n <;> decide

/-- digitVal inverts digitChar below ten. -/
theorem digitVal_digitChar (n : Nat) (h : n < 10) : digitVal (digitChar n) = n := by
  interval_cases n <;> decide

/-- The printed digits of a natural number are all digit characters. -/
theorem natStr_digits (n : Nat) : ∀ c ∈ natStr n, c.isDigit = true := by
  induction n using Nat.strong_induction_on with
  | _ n ih =>
    by_cases h : n < 10
    · rw [natStr_lt_ten n h]
      intro c hc
      simp at hc
      rw [hc]
      exact digitChar_isDigit n h
    · rw [natStr_ge_ten n (by omega)]
      intro c hc
      rcases List.mem_append.mp hc with hc2 | hc2
      · exact ih (n / 10) (by omega) c hc2
      · simp at hc2
        rw [hc2]
        exact digitChar_isDigit (n % 10) (Nat.mod_lt n (by omega))

/-- The printed digits are never empty. -/
theorem natStr_ne_nil (n : Nat) : natStr n ≠ [] := by
  by_cases h : n < 10
  · rw [natStr_lt_ten n h]
    simp
  · rw [natStr_ge_ten n (by omega)]
    simp

/-- Folding the digit value over an append. -/
theorem digitsToNat_append (a b : Str) :
    digitsToNat (a ++ b) = digitsToNat a * 10 ^ b.length + digitsToNat b := by
  have key : ∀ (ds : Str) (init : Nat),
      ds.foldl (fun x c => x * 10 + digitVal c) init =
        init * 10 ^ ds.length + ds.foldl (fun x c => x * 10 + digitVal c) 0 := by
    intro ds
    induction ds with
    | nil => intro init; simp
    | cons c cs ih =>
      intro init
      rw [List.foldl_cons, ih (init * 10 + digitVal c), List.foldl_cons,
        show (0 : Nat) * 10 + digitVal c = digitVal c from by omega,
        ih (digitVal c)]
      ring_nf
      simp [List.length_cons]
      ring
  unfold digitsToNat
  rw [List.foldl_append, key b (a.foldl (fun x c => x * 10 + digitVal c) 0)]

/-- The printer and the digit evaluator cancel. -/
theorem digitsToNat_natStr (n : Nat) : digitsToNat (natStr n) = n := by
  induction n using Nat.strong_induction_on with
  | _ n ih =>
    by_cases h : n < 10
    · rw [natStr_lt_ten n h]
      simp [digitsToNat, digitVal_digitChar n h]
    · rw [natStr_ge_ten n (by omega), digitsToNat_append, ih (n / 10) (by omega)]
      simp [digitsToNat, digitVal_digitChar (n % 10) (Nat.mod_lt n (by omega))]
      omega

/-- The printer uses at most k digits below ten to the k. -/
theorem natStr_length_le (n k : Nat) (hk : 0 < k) (h : n < 10 ^ k) :
    (natStr n).length ≤ k := by
  induction n using Nat.strong_induction_on generalizing k with
  | _ n ih =>
    by_cases h10 : n < 10
    · rw [natStr_lt_ten n h10]
      simpa using hk
    · rw [natStr_ge_ten n (by omega)]
      have hk2 : 2 ≤ k := by
        by_contra hc
        have : k = 1 := by omega
        rw [this] at h
        simp at h
        omega
      have hd : n / 10 < 10 ^ (k - 1) := by
        rw [Nat.div_lt_iff_lt_mul (by omega)]
        calc n < 10 ^ k := h
        _ = 10 ^ (k - 1) * 10 := by
          rw [← Nat.pow_succ]
          congr 1
          omega
      have := ih (n / 10) (by omega) (k - 1) (by omega) hd
      simp [List.length_append]
      omega

/-- Evaluating a zero-padded digit string. -/
theorem digitsToNat_padZeros (k : Nat) (ds : Str) :
    digitsToNat (padZeros k ds) = digitsToNat ds := by
  unfold padZeros
  rw [digitsToNat_append]
  have : digitsToNat (List.replicate (k - ds.length) '0') = 0 := by
    induction (k - ds.length) with
    | zero => rfl
    | succ j ihj =>
      rw [List.replicate_succ]
      show digitsToNat ('0' :: List.replicate j '0') = 0
      have : digitsToNat ('0' :: List.replicate j '0') =
          digitsToNat ([ '0' ] ++ List.replicate j '0') := rfl
      rw [this, digitsToNat_append, ihj]
      simp [digitsToNat, digitVal]
  rw [this]
  simp

/-- Length of a zero-padded digit string that fits. -/
theorem padZeros_length (k : Nat) (ds : Str) (h : ds.length ≤ k) :
    (padZeros k ds).length = k := by
  unfold padZeros
  simp [List.length_append, List.length_replicate]
  omega

/-- Every character of a zero-padded digit string of digits is a digit. -/
theorem padZeros_digits (k : Nat) (ds : Str) (h : ∀ c ∈ ds, c.isDigit = true) :
    ∀ c ∈ padZeros k ds, c.isDigit = true := by
  intro c hc
  unfold padZeros at hc
  rcases List.mem_append.mp hc with hc2 | hc2
  · have := List.eq_of_mem_replicate hc2
    rw [this]
    decide
  · exact h c hc2

/-- Normalizing an already scaled pair divides out exactly the scale. -/
theorem mkFrac_scaled (a den c : Nat) (hc : c ≠ 0) (hden : den ≠ 0)
    (hgcd : Nat.gcd a den = 1) :
    mkFrac ((a * c : Nat) : Int) (den * c) = ⟨(a : Int), den⟩ := by
  unfold mkFrac
  rw [if_neg (Nat.mul_ne_zero hden hc)]
  have hg : natGcd ((a * c : Nat) : Int).natAbs (den * c) = c := by
    rw [natGcd_eq]
    simp only [Int.natAbs_ofNat]
    rw [Nat.gcd_mul_right, hgcd, one_mul]
  rw [hg]
  congr 1
  · rw [show ((a * c : Nat) : Int) = (a : Int) * (c : Int) from by push_cast; ring]
    exact Int.mul_ediv_cancel (a : Int) (by exact_mod_cast hc)
  · exact Nat.mul_div_cancel den (by omega)

/-- Normalizing a normalized fraction changes nothing. -/
theorem mkFrac_self (q : Frac) (hden : q.den ≠ 0)
    (hgcd : Nat.gcd q.num.natAbs q.den = 1) : mkFrac q.num q.den = q := by
  unfold mkFrac
  rw [if_neg hden, natGcd_eq, hgcd]
  simp

/-- A zero exponent is the identity on normalized fractions. -/
theorem fracApplyExp_zero (q : Frac) (hden : q.den ≠ 0)
    (hgcd : Nat.gcd q.num.natAbs q.den = 1) : fracApplyExp q 0 = q := by
  show mkFrac (q.num * ((10 ^ 0 : Nat) : Int)) q.den = q
  rw [show ((10 ^ 0 : Nat) : Int) = 1 from by norm_num, mul_one]
  exact mkFrac_self q hden hgcd

/-- takeWhile over an all-true prefix followed by a failing head. -/
theorem takeWhile_all_append (p : Char → Bool) (a b : Str)
    (ha : ∀ c ∈ a, p c = true) (hb : ∀ c, b.head? = some c → p c = false) :
    (a ++ b).takeWhile p = a := by
  induction a with
  | nil =>
    cases b with
    | nil => rfl
    | cons x xs =>
      simp [List.takeWhile_cons, hb x rfl]
  | cons y ys ih =>
    simp only [List.cons_append, List.takeWhile_cons, ha y (by simp)]
    rw [ih fun c hc => ha c (by simp [hc])]
    simp

/-- dropWhile over an all-true prefix followed by a failing head. -/
theorem dropWhile_all_append (p : Char → Bool) (a b : Str)
    (ha : ∀ c ∈ a, p c = true) (hb : ∀ c, b.head? = some c → p c = false) :
    (a ++ b).dropWhile p = b := by
  induction a with
  | nil =>
    cases b with
    | nil => rfl
    | cons x xs =>
      simp [List.dropWhile_cons, hb x rfl]
  | cons y ys ih =>
    simp only [List.cons_append, List.dropWhile_cons, ha y (by simp)]
    rw [ih fun c hc => ha c (by simp [hc])]
    simp

/-- span over an all-true prefix followed by a failing head. -/
theorem span_all_append (p : Char → Bool) (a b : Str)
    (ha : ∀ c ∈ a, p c = true) (hb : ∀ c, b.head? = some c → p c = false) :
    (a ++ b).span p = (a, b) := by
  rw [List.span_eq_take_drop, takeWhile_all_append p a b ha hb,
    dropWhile_all_append p a b ha hb]

/-- Core round-trip: parsing the printed digits of a normalized finite-decimal
fraction recovers its absolute value. -/
theorem parseUnsigned_printNonneg (q : Frac) (hden : q.den ≠ 0)
    (hdvd : (10 ^ decExpOfDen q.den) % q.den = 0)
    (hgcd : Nat.gcd q.num.natAbs q.den = 1) :
    parseUnsigned (printNonneg q) = some ⟨(q.num.natAbs : Int), q.den⟩ := by
  have hdvd2 : q.den ∣ 10 ^ decExpOfDen q.den := Nat.dvd_of_mod_eq_zero hdvd
  have hc10 : q.den * (10 ^ decExpOfDen q.den / q.den) = 10 ^ decExpOfDen q.den :=
    Nat.mul_div_cancel' hdvd2
  by_cases hk : decExpOfDen q.den = 0
  · have hden1 : q.den = 1 := by
      rw [hk] at hdvd2
      simpa using Nat.eq_one_of_dvd_one (by simpa using hdvd2)
    have hp : printNonneg q = natStr (q.num.natAbs * (10 ^ decExpOfDen q.den / q.den)) := by
      unfold printNonneg
      rw [if_pos hk]
    have hm : q.num.natAbs * (10 ^ decExpOfDen q.den / q.den) = q.num.natAbs := by
      rw [hk, hden1]
      simp
    rw [hp, hm]
    have hspan : (natStr q.num.natAbs).span Char.isDigit = (natStr q.num.natAbs, []) := by
      have := span_all_append Char.isDigit (natStr q.num.natAbs) []
        (natStr_digits _) (by intro c hc; simp at hc)
      simpa using this
    simp only [parseUnsigned, hspan]
    rw [if_neg (by simp [natStr_ne_nil q.num.natAbs])]
    rw [show parseExpPart ((if (([] : Str).head? == some '.') = true
        then (([] : Str).tail.span Char.isDigit).2 else ([] : Str))) = 0 from by decide]
    congr 1
    rw [show (if (([] : Str).head? == some '.') = true
        then (([] : Str).tail.span Char.isDigit).1 else ([] : Str)) = ([] : Str) from by decide]
    simp only [digitsToNat_natStr, List.length_nil, pow_zero, mul_one,
      show digitsToNat [] = 0 from rfl, Nat.cast_zero, add_zero]
    have h1 : mkFrac ((q.num.natAbs : Nat) : Int) 1 = ⟨(q.num.natAbs : Int), 1⟩ := by
      have h2 := mkFrac_scaled q.num.natAbs 1 1 (by omega) (by omega)
        (by rw [Nat.gcd_one_right])
      simpa using h2
    rw [h1, fracApplyExp_zero ⟨(q.num.natAbs : Int), 1⟩ (by simp)
      (by simp [Nat.gcd_one_right]), hden1]
  · have hkpos : 0 < decExpOfDen q.den := Nat.pos_of_ne_zero hk
    have hcne : 10 ^ decExpOfDen q.den / q.den ≠ 0 := by
      intro hc0
      rw [hc0, Nat.mul_zero] at hc10
      have hpow : (0 : Nat) < 10 ^ decExpOfDen q.den := Nat.pos_pow_of_pos _ (by omega)
      omega
    have hp : printNonneg q =
        natStr (q.num.natAbs * (10 ^ decExpOfDen q.den / q.den) / 10 ^ decExpOfDen q.den) ++
        '.' :: padZeros (decExpOfDen q.den)
          (natStr (q.num.natAbs * (10 ^ decExpOfDen q.den / q.den) % 10 ^ decExpOfDen q.den)) := by
      unfold printNonneg
      rw [if_neg hk]
    have hfrac_digits : ∀ ch ∈ padZeros (decExpOfDen q.den)
        (natStr (q.num.natAbs * (10 ^ decExpOfDen q.den / q.den) % 10 ^ decExpOfDen q.den)),
        ch.isDigit = true :=
      padZeros_digits _ _ (natStr_digits _)
    have hspan1 : (natStr (q.num.natAbs * (10 ^ decExpOfDen q.den / q.den) / 10 ^ decExpOfDen q.den) ++
        '.' :: padZeros (decExpOfDen q.den)
          (natStr (q.num.natAbs * (10 ^ decExpOfDen q.den / q.den) % 10 ^ decExpOfDen q.den))).span
          Char.isDigit
        = (natStr (q.num.natAbs * (10 ^ decExpOfDen q.den / q.den) / 10 ^ decExpOfDen q.den),
           '.' :: padZeros (decExpOfDen q.den)
             (natStr (q.num.natAbs * (10 ^ decExpOfDen q.den / q.den) % 10 ^ decExpOfDen q.den))) := by
      refine span_all_append Char.isDigit _ _ (natStr_digits _) ?_
      intro ch hch
      simp at hch
      rw [← hch]
      decide
    have hspan2 : (padZeros (decExpOfDen q.den)
        (natStr (q.num.natAbs * (10 ^ decExpOfDen q.den / q.den) % 10 ^ decExpOfDen q.den))).span
          Char.isDigit
        = (padZeros (decExpOfDen q.den)
            (natStr (q.num.natAbs * (10 ^ decExpOfDen q.den / q.den) % 10 ^ decExpOfDen q.den)),
           []) := by
      have := span_all_append Char.isDigit _ [] hfrac_digits (by intro ch hch; simp at hch)
      simpa using this
    rw [hp]
    simp only [parseUnsigned, hspan1, List.head?_cons, List.tail_cons, hspan2]
    rw [if_neg (by simp [natStr_ne_nil])]
    have hlenle : (natStr (q.num.natAbs * (10 ^ decExpOfDen q.den / q.den) % 10 ^ decExpOfDen q.den)).length ≤
        decExpOfDen q.den :=
      natStr_length_le _ _ hkpos (Nat.mod_lt _ (Nat.pos_pow_of_pos _ (by omega)))
    have hFlen : (padZeros (decExpOfDen q.den)
        (natStr (q.num.natAbs * (10 ^ decExpOfDen q.den / q.den) % 10 ^ decExpOfDen q.den))).length =
        decExpOfDen q.den := padZeros_length _ _ hlenle
    have hdot : ((some '.' : Option Char) == some '.') = true := rfl
    rw [if_pos hdot, if_pos hdot]
    rw [show parseExpPart [] = 0 from by decide, Option.some_inj]
    rw [digitsToNat_padZeros, digitsToNat_natStr, digitsToNat_natStr, hFlen]
    have harith : (((q.num.natAbs * (10 ^ decExpOfDen q.den / q.den) /
          10 ^ decExpOfDen q.den : Nat) : Int) * (10 : Int) ^ decExpOfDen q.den +
        ((q.num.natAbs * (10 ^ decExpOfDen q.den / q.den) %
          10 ^ decExpOfDen q.den : Nat) : Int)) =
        ((q.num.natAbs * (10 ^ decExpOfDen q.den / q.den) : Nat) : Int) := by
      have hnat := Nat.div_add_mod' (q.num.natAbs * (10 ^ decExpOfDen q.den / q.den))
        (10 ^ decExpOfDen q.den)
      calc ((q.num.natAbs * (10 ^ decExpOfDen q.den / q.den) /
            10 ^ decExpOfDen q.den : Nat) : Int) * (10 : Int) ^ decExpOfDen q.den +
          ((q.num.natAbs * (10 ^ decExpOfDen q.den / q.den) %
            10 ^ decExpOfDen q.den : Nat) : Int)
          = ((q.num.natAbs * (10 ^ decExpOfDen q.den / q.den) / 10 ^ decExpOfDen q.den *
              10 ^ decExpOfDen q.den +
              q.num.natAbs * (10 ^ decExpOfDen q.den / q.den) %
                10 ^ decExpOfDen q.den : Nat) : Int) := by
            push_cast
            ring
        _ = ((q.num.natAbs * (10 ^ decExpOfDen q.den / q.den) : Nat) : Int) := by
            rw [hnat]
    rw [harith]
    nth_rewrite 2 [← hc10]
    rw [mkFrac_scaled q.num.natAbs q.den (10 ^ decExpOfDen q.den / q.den) hcne hden hgcd]
    exact fracApplyExp_zero ⟨(q.num.natAbs : Int), q.den⟩ hden
      (by rw [show ((q.num.natAbs : Int)).natAbs = q.num.natAbs from Int.natAbs_ofNat _]
          exact hgcd)

/-- A digit character never equals a non-digit character. -/
theorem digit_beq_ne (c d : Char) (h : c.isDigit = true) (hd : d.isDigit = false) :
    (c == d) = false := by
  by_contra hcon
  have hcd : (c == d) = true := by revert hcon; cases c == d <;> simp
  rw [beq_iff_eq] at hcd
  rw [hcd] at h
  rw [h] at hd
  exact Bool.noConfusion hd

/-- A digit character is not whitespace. -/
theorem digit_not_ws (c : Char) (h : c.isDigit = true) : isWsChar c = false := by
  unfold isWsChar
  rw [digit_beq_ne c ' ' h (by decide), digit_beq_ne c '\t' h (by decide),
    digit_beq_ne c '\n' h (by decide), digit_beq_ne c '\r' h (by decide)]
  rfl

/-- The printed form of a nonnegative fraction starts with a digit. -/
theorem printNonneg_head (q : Frac) :
    ∃ c cs, printNonneg q = c :: cs ∧ c.isDigit = true := by
  have key : ∀ n : Nat, ∃ c cs, natStr n = c :: cs ∧ c.isDigit = true := by
    intro n
    cases h : natStr n with
    | nil => exact absurd h (natStr_ne_nil n)
    | cons c cs =>
      exact ⟨c, cs, rfl, natStr_digits n c (by rw [h]; simp)⟩
  unfold printNonneg
  by_cases hk : decExpOfDen q.den = 0
  · rw [if_pos hk]
    exact key _
  · rw [if_neg hk]
    obtain ⟨c, cs, hcs, hdig⟩ := key
      (q.num.natAbs * (10 ^ decExpOfDen q.den / q.den) / 10 ^ decExpOfDen q.den)
    exact ⟨c, cs ++ '.' :: padZeros (decExpOfDen q.den)
      (natStr (q.num.natAbs * (10 ^ decExpOfDen q.den / q.den) % 10 ^ decExpOfDen q.den)),
      by rw [hcs]; simp, hdig⟩

/-- C4 core: JavaScript number printing followed by parseFloat is the
identity on the normalized finite-decimal fractions this pipeline handles. -/
theorem jsParseFloat_printFrac (q : Frac) (hnorm : q.normalized = true)
    (hfin : isFiniteDec q = true) : jsParseFloat (printFrac q) = some q := by
  have hden : q.den ≠ 0 := by
    unfold Frac.normalized at hnorm
    simp only [Bool.and_eq_true, bne_iff_ne, ne_eq, beq_iff_eq] at hnorm
    exact hnorm.1
  have hgcd : Nat.gcd q.num.natAbs q.den = 1 := by
    unfold Frac.normalized at hnorm
    simp only [Bool.and_eq_true, bne_iff_ne, ne_eq, beq_iff_eq] at hnorm
    rw [← natGcd_eq]
    exact hnorm.2
  have hdvd : (10 ^ decExpOfDen q.den) % q.den = 0 := by
    unfold isFiniteDec at hfin
    simp only [Bool.and_eq_true, bne_iff_ne, ne_eq, beq_iff_eq] at hfin
    exact hfin.2
  obtain ⟨c, cs, hcs, hcdig⟩ := printNonneg_head q
  have hcore := parseUnsigned_printNonneg q hden hdvd hgcd
  by_cases hneg : q.num < 0
  · have hp : printFrac q = '-' :: printNonneg q := by
      unfold printFrac
      rw [if_pos hneg]
    rw [hp]
    unfold jsParseFloat
    rw [show ('-' :: printNonneg q).dropWhile isWsChar = '-' :: printNonneg q from by
      rw [List.dropWhile_cons]
      simp [isWsChar]]
    simp only [List.head?_cons, List.tail_cons]
    rw [show ((some '-' == some '-') || (some '-' == some '+')) = true from rfl,
      if_pos rfl]
    rw [hcore]
    show some (if ((some '-' == some '-') : Bool) = true
        then negFrac ⟨(q.num.natAbs : Int), q.den⟩
        else ⟨(q.num.natAbs : Int), q.den⟩) = some q
    rw [if_pos (show ((some '-' == some '-') : Bool) = true from rfl)]
    rw [show (negFrac ⟨(q.num.natAbs : Int), q.den⟩) = q from by
      unfold negFrac
      rw [show ((q.num.natAbs : Nat) : Int) = -q.num from
        Int.ofNat_natAbs_of_nonpos (by omega)]
      rw [neg_neg]]
  · have hp : printFrac q = printNonneg q := by
      unfold printFrac
      rw [if_neg hneg]
    rw [hp]
    unfold jsParseFloat
    rw [hcs]
    rw [show (c :: cs).dropWhile isWsChar = c :: cs from by
      rw [List.dropWhile_cons]
      simp [digit_not_ws c hcdig]]
    simp only [List.head?_cons, List.tail_cons]
    have hnd : ((some c == some '-') : Bool) = false := by
      rw [show ((some c == some '-') : Bool) = (c == '-') from rfl]
      exact digit_beq_ne c '-' hcdig (by decide)
    have hnp : (((some c == some '-') : Bool) || (some c == some '+')) = false := by
      rw [show ((some c == some '-') : Bool) = (c == '-') from rfl,
        show ((some c == some '+') : Bool) = (c == '+') from rfl,
        digit_beq_ne c '-' hcdig (by decide), digit_beq_ne c '+' hcdig (by decide)]
      rfl
    simp only [hnp, Bool.false_eq_true, if_false]
    have hcore2 : parseUnsigned (c :: cs) = some ⟨(q.num.natAbs : Int), q.den⟩ := by
      rw [← hcs]
      exact hcore
    rw [hcore2]
    show some (if ((some c == some '-') : Bool) = true
        then negFrac ⟨(q.num.natAbs : Int), q.den⟩
        else ⟨(q.num.natAbs : Int), q.den⟩) = some q
    rw [hnd]
    simp only [Bool.false_eq_true, if_false]
    rw [show ((q.num.natAbs : Nat) : Int) = q.num from Int.natAbs_of_nonneg (by omega)]

/-- The split of a list never yields an empty list of pieces. -/
theorem splitOnChar_ne_nil (sep : Char) (l : Str) : splitOnChar sep l ≠ [] := by
  cases l with
  | nil => simp [splitOnChar]
  | cons c cs =>
    unfold splitOnChar
    cases splitOnChar sep cs with
    | nil => simp
    | cons r rs =>
      by_cases h : (c == sep) = true
      · simp [h]
      · simp [h]

/-- Splitting a separator-free list is the identity. -/
theorem splitOnChar_no_sep (sep : Char) (l : Str) (h : ∀ c ∈ l, (c == sep) = false) :
    splitOnChar sep l = [l] := by
  induction l with
  | nil => rfl
  | cons c cs ih =>
    unfold splitOnChar
    rw [ih fun x hx => h x (by simp [hx])]
    simp [h c (by simp)]

/-- Splitting after a leading separator adds an empty first piece. -/
theorem splitOnChar_cons_sep (sep : Char) (l : Str) :
    splitOnChar sep (sep :: l) = [] :: splitOnChar sep l := by
  conv_lhs => unfold splitOnChar
  cases hs : splitOnChar sep l with
  | nil => exact absurd hs (splitOnChar_ne_nil sep l)
  | cons r rs => simp

/-- A separator-free prefix joins into the first piece of the split. -/
theorem splitOnChar_append_free (sep : Char) (a l : Str)
    (h : ∀ c ∈ a, (c == sep) = false) (r : Str) (rs : List Str)
    (hl : splitOnChar sep l = r :: rs) :
    splitOnChar sep (a ++ l) = (a ++ r) :: rs := by
  induction a with
  | nil => simpa using hl
  | cons c cs ih =>
    have hrec := ih fun x hx => h x (by simp [hx])
    show splitOnChar sep (c :: (cs ++ l)) = (c :: (cs ++ r)) :: rs
    unfold splitOnChar
    rw [hrec]
    simp [h c (by simp)]

/-- Splitting a separator join recovers the separator-free pieces. -/
theorem split_join (sep : Char) (ps : List Str) (hne : ps ≠ [])
    (h : ∀ p ∈ ps, ∀ c ∈ p, (c == sep) = false) :
    splitOnChar sep (joinWith sep ps) = ps := by
  induction ps with
  | nil => exact absurd rfl hne
  | cons p ps ih =>
    cases ps with
    | nil =>
      show splitOnChar sep p = [p]
      exact splitOnChar_no_sep sep p (h p (by simp))
    | cons p2 ps2 =>
      have hrec := ih (by simp) fun x hx c hc => h x (by simp [hx]) c hc
      show splitOnChar sep (p ++ sep :: joinWith sep (p2 :: ps2)) = p :: p2 :: ps2
      rw [splitOnChar_append_free sep p (sep :: joinWith sep (p2 :: ps2))
        (h p (by simp)) [] (p2 :: ps2) ?_]
      · simp
      · rw [splitOnChar_cons_sep, hrec]

/-- Characters of a printed number: digits, the sign, or the point. -/
theorem printFrac_chars (q : Frac) :
    ∀ c ∈ printFrac q, c.isDigit = true ∨ c = '-' ∨ c = '.' := by
  have hnn : ∀ c ∈ printNonneg q, c.isDigit = true ∨ c = '-' ∨ c = '.' := by
    unfold printNonneg
    by_cases hk : decExpOfDen q.den = 0
    · rw [if_pos hk]
      intro c hc
      exact Or.inl (natStr_digits _ c hc)
    · rw [if_neg hk]
      intro c hc
      rcases List.mem_append.mp hc with hc2 | hc2
      · exact Or.inl (natStr_digits _ c hc2)
      · rcases List.mem_cons.mp hc2 with rfl | hc3
        · exact Or.inr (Or.inr rfl)
        · exact Or.inl (padZeros_digits _ _ (natStr_digits _) c hc3)
  unfold printFrac
  by_cases hneg : q.num < 0
  · rw [if_pos hneg]
    intro c hc
    rcases List.mem_cons.mp hc with rfl | hc2
    · exact Or.inr (Or.inl rfl)
    · exact hnn c hc2
  · rw [if_neg hneg]
    exact hnn

/-- Characters of a quote-doubled string come from the original or are
quotes. -/
theorem doubleQuotes_chars (s : Str) :
    ∀ c ∈ doubleQuotes s, c ∈ s ∨ c = '"' := by
  induction s with
  | nil => intro c hc; simp [doubleQuotes] at hc
  | cons a as ih =>
    intro c hc
    by_cases ha : (a == '"') = true
    · rw [show doubleQuotes (a :: as) = '"' :: '"' :: doubleQuotes as from by
        conv_lhs => unfold doubleQuotes
        rw [if_pos ha]] at hc
      rcases List.mem_cons.mp hc with rfl | hc2
      · exact Or.inr rfl
      · rcases List.mem_cons.mp hc2 with rfl | hc3
        · exact Or.inr rfl
        · rcases ih c hc3 with h | h
          · exact Or.inl (by simp [h])
          · exact Or.inr h
    · rw [show doubleQuotes (a :: as) = a :: doubleQuotes as from by
        conv_lhs => unfold doubleQuotes
        rw [if_neg ha]] at hc
      rcases List.mem_cons.mp hc with rfl | hc2
      · exact Or.inl (by simp)
      · rcases ih c hc2 with h | h
        · exact Or.inl (by simp [h])
        · exact Or.inr h

/-- Undoubling with a leading pair of quotes. -/
theorem undoubleQuotes_two (l : Str) :
    undoubleQuotes ('"' :: '"' :: l) = '"' :: undoubleQuotes l := rfl

/-- Undoubling with a non-quote head. -/
theorem undoubleQuotes_cons_ne (c : Char) (l : Str) (h : c ≠ '"') :
    undoubleQuotes (c :: l) = c :: undoubleQuotes l := by
  conv_lhs => unfold undoubleQuotes
  split
  · rename_i heq
    injection heq with h1 h2
    exact absurd h1 h
  · rename_i heq
    injection heq with h1 h2
    subst h1
    subst h2
    rfl
  · rename_i heq
    simp at heq

/-- Collapsing the doubled quotes recovers the original text. -/
theorem undoubleQuotes_doubleQuotes (s : Str) :
    undoubleQuotes (doubleQuotes s) = s := by
  induction s with
  | nil => rfl
  | cons a as ih =>
    by_cases ha : (a == '"') = true
    · rw [show doubleQuotes (a :: as) = '"' :: '"' :: doubleQuotes as from by
        conv_lhs => unfold doubleQuotes
        rw [if_pos ha],
        undoubleQuotes_two, ih]
      rw [beq_iff_eq] at ha
      rw [ha]
    · rw [show doubleQuotes (a :: as) = a :: doubleQuotes as from by
        conv_lhs => unfold doubleQuotes
        rw [if_neg ha],
        undoubleQuotes_cons_ne a _ (by simpa using ha), ih]

/-- Stripping the outer quotes of a quoted field leaves the doubled body. -/
theorem stripOuterQuotes_quoteField (d : Str) :
    stripOuterQuotes (quoteField d) = doubleQuotes d := by
  unfold quoteField stripOuterQuotes
  show dropTrailingQuote (doubleQuotes d ++ ['"']) = doubleQuotes d
  unfold dropTrailingQuote
  rw [List.getLast?_concat]
  simp [List.dropLast_concat]

/-- The import-side description decoding inverts the export-side encoding. -/
theorem import_desc_roundtrip (d : Str) :
    undoubleQuotes (stripOuterQuotes (quoteField d)) = d := by
  rw [stripOuterQuotes_quoteField, undoubleQuotes_doubleQuotes]


theorem trimStr_ne_nil (l : Str) (c : Char) (hc : c ∈ l) (h : isWsChar c = false) :
    (trimStr l == ([] : Str)) = false := by
  rw [beq_eq_false_iff_ne]
  intro hcon
  unfold trimStr at hcon
  rw [List.reverse_eq_nil_iff, List.dropWhile_eq_nil_iff] at hcon
  have hall : ∀ x ∈ l.dropWhile isWsChar, isWsChar x = true := by
    intro x hx
    exact hcon x (by simpa using hx)
  have hall2 : ∀ x ∈ l, isWsChar x = true := by
    intro x hx
    rw [← List.takeWhile_append_dropWhile (p := isWsChar) (l := l)] at hx
    rcases List.mem_append.mp hx with hx2 | hx2
    · exact List.mem_takeWhile_imp hx2
    · exact hall x hx2
  rw [hall2 c hc] at h
  exact Bool.noConfusion h

theorem datePart_no_T (s : Str) : ∀ c ∈ datePart s, (c == 'T') = false := by
  intro c hc
  have := List.mem_takeWhile_imp hc
  simpa using this

theorem datePart_append (d r : Str) (hd : ∀ c ∈ d, (c == 'T') = false) :
    datePart (d ++ 'T' :: r) = d := by
  unfold datePart
  induction d with
  | nil => simp [List.takeWhile_cons]
  | cons a as ih =>
    have ha : a ≠ 'T' := by simpa using hd a (by simp)
    have ih2 := ih fun c hc => hd c (by simp [hc])
    simp only [List.cons_append, List.takeWhile_cons]
    have hcond : (decide (¬(a == 'T') = true)) = true := by simpa using ha
    rw [if_pos hcond, ih2]

theorem dateParts_some (s : Str) (y m d : Str) (h : dateParts s = some (y, m, d)) :
    s = y ++ '-' :: m ++ '-' :: d ∧ y.length = 4 ∧ m.length = 2 ∧ d.length = 2 := by
  unfold dateParts at h
  split at h
  · rename_i y1 y2 y3 y4 h1 m1 m2 h2 d1 d2
    split at h
    · rename_i hcond
      injection h with h2
      injection h2 with hy hmd
      injection hmd with hm hd2
      subst hy
      subst hm
      subst hd2
      have hc1 : h1 = '-' := by simpa using hcond.1
      have hc2 : h2 = '-' := by simpa using hcond.2
      refine ⟨?_, by simp, by simp, by simp⟩
      rw [hc1, hc2]
      rfl
    · exact Option.noConfusion h
  · exact Option.noConfusion h

/-- Every character of a calendar-valid date string is a digit or a dash. -/
theorem isValidDate_chars (s : Str) (h : isValidDate s = true) :
    ∀ c ∈ s, c.isDigit = true ∨ c = '-' := by
  unfold isValidDate at h
  cases hdp : dateParts s with
  | none => rw [hdp] at h; exact absurd h (by simp)
  | some ymd =>
    obtain ⟨y, m, d⟩ := ymd
    rw [hdp] at h
    obtain ⟨hs, -, -, -⟩ := dateParts_some s y m d hdp
    simp only [Bool.and_eq_true] at h
    obtain ⟨⟨⟨hy, hm⟩, hd⟩, -⟩ := h
    intro c hc
    rw [hs] at hc
    rcases List.mem_append.mp hc with hcl | hrest
    · rcases List.mem_append.mp hcl with hcy | hcm2
      · exact Or.inl (List.all_eq_true.mp hy c hcy)
      rcases List.mem_cons.mp hcm2 with rfl | hcm
      · exact Or.inr rfl
      · exact Or.inl (List.all_eq_true.mp hm c hcm)
    · rcases List.mem_cons.mp hrest with rfl | hcd
      · exact Or.inr rfl
      · exact Or.inl (List.all_eq_true.mp hd c hcd)

/-- A string fit to stand as one cell of a naive-comma CSV line: free of commas
and newlines. -/
def cleanStr (s : Str) : Prop := ∀ c ∈ s, (c == ',') = false ∧ (c == '\n') = false

instance (s : Str) : Decidable (cleanStr s) := by
  unfold cleanStr
  infer_instance

/-- A valid date string is cell-clean. -/
theorem cleanStr_of_date (s : Str) (h : isValidDate s = true) : cleanStr s := by
  intro c hc
  rcases isValidDate_chars s h c hc with hd | hd
  · exact ⟨digit_beq_ne c ',' hd (by decide), digit_beq_ne c '\n' hd (by decide)⟩
  · subst hd; exact ⟨by decide, by decide⟩

/-- A valid date string holds no letter T. -/
theorem isValidDate_no_T (s : Str) (h : isValidDate s = true) :
    ∀ c ∈ s, (c == 'T') = false := by
  intro c hc
  rcases isValidDate_chars s h c hc with hd | hd
  · exact digit_beq_ne c 'T' hd (by decide)
  · subst hd; decide

/-- Printed amounts are cell-clean. -/
theorem cleanStr_printFrac (q : Frac) : cleanStr (printFrac q) := by
  intro c hc
  rcases printFrac_chars q c hc with hd | hd | hd
  · exact ⟨digit_beq_ne c ',' hd (by decide), digit_beq_ne c '\n' hd (by decide)⟩
  · subst hd; exact ⟨by decide, by decide⟩
  · subst hd; exact ⟨by decide, by decide⟩

/-- Quoting a cell-clean description stays cell-clean. -/
theorem cleanStr_quoteField (d : Str) (h : cleanStr d) : cleanStr (quoteField d) := by
  intro c hc
  unfold quoteField at hc
  rcases List.mem_cons.mp hc with rfl | hc2
  · exact ⟨by decide, by decide⟩
  rcases List.mem_append.mp hc2 with hc3 | hc3
  · rcases doubleQuotes_chars d c hc3 with h3 | h3
    · exact h c h3
    · subst h3; exact ⟨by decide, by decide⟩
  · rcases List.mem_singleton.mp hc3 with rfl
    exact ⟨by decide, by decide⟩

/-- The find scan lands on the unique matching element. -/
theorem find?_unique {α : Type} (p : α → Bool) (l : List α) (a : α) (ha : a ∈ l)
    (hpa : p a = true) (huniq : ∀ x ∈ l, p x = true → x = a) : l.find? p = some a := by
  have hs : (l.find? p).isSome := List.find?_isSome.mpr ⟨a, ha, hpa⟩
  obtain ⟨b, hb⟩ := Option.isSome_iff_exists.mp hs
  rw [hb, huniq b (List.mem_of_find?_eq_some hb) (List.find?_some hb)]

/-- A draft as a stored transaction with a given identifier and profile;
equals attaching the profile and then the generated identifier. -/
def TxDraft.asTx (d : TxDraft) (i pid : Str) : Transaction :=
  ⟨i, pid, d.type, d.amount, d.description, d.date, d.categoryId, d.sourceId,
   d.paymentMethod, none⟩

theorem toNew_withId (d : TxDraft) (i pid : Str) :
    (d.toNew pid).withId i = d.asTx i pid := rfl

/-- The row tuple ignores the identifier and profile of the attached draft. -/
theorem tupleOf_asTx (tcats : List Category) (tsrcs : List IncomeSource)
    (d : TxDraft) (i p i2 p2 : Str) :
    tupleOf tcats tsrcs (d.asTx i p) = tupleOf tcats tsrcs (d.asTx i2 p2) := rfl

/-- Cell lookups of an export-shaped row under the export header. -/
theorem rowGet_export7 (c0 c1 c2 c3 c4 c5 c6 : Str) :
    rowGet (importHeader exportHeaderLine) [c0, c1, c2, c3, c4, c5, c6] (str "date")
        = some c0 ∧
    rowGet (importHeader exportHeaderLine) [c0, c1, c2, c3, c4, c5, c6] (str "description")
        = some c1 ∧
    rowGet (importHeader exportHeaderLine) [c0, c1, c2, c3, c4, c5, c6] (str "amount")
        = some c2 ∧
    rowGet (importHeader exportHeaderLine) [c0, c1, c2, c3, c4, c5, c6] (str "type")
        = some c3 ∧
    rowGet (importHeader exportHeaderLine) [c0, c1, c2, c3, c4, c5, c6] (str "paymentMethod")
        = some c4 ∧
    rowGet (importHeader exportHeaderLine) [c0, c1, c2, c3, c4, c5, c6] (str "category")
        = some c5 ∧
    rowGet (importHeader exportHeaderLine) [c0, c1, c2, c3, c4, c5, c6] (str "source")
        = some c6 :=
  ⟨rfl, rfl, rfl, rfl, rfl, rfl, rfl⟩

/-- A nonempty valid date string is not the empty cell. -/
theorem isValidDate_ne_nil (s : Str) (h : isValidDate s = true) :
    (s == ([] : Str)) = false := by
  cases s with
  | nil => exact absurd h (by decide)
  | cons a as => rfl

/-- Members of a list mapping without repetition to equal values are equal. -/
theorem nodup_map_inj {α β : Type} (f : α → β) (l : List α) (h : (l.map f).Nodup)
    (x y : α) (hx : x ∈ l) (hy : y ∈ l) (hf : f x = f y) : x = y := by
  induction l with
  | nil => cases hx
  | cons a as ih =>
    rw [List.map_cons, List.nodup_cons] at h
    rcases List.mem_cons.mp hx with rfl | hx2
    · rcases List.mem_cons.mp hy with rfl | hy2
      · rfl
      · exact absurd (List.mem_map.mpr ⟨y, hy2, hf.symm⟩) h.1
    · rcases List.mem_cons.mp hy with rfl | hy2
      · exact absurd (List.mem_map.mpr ⟨x, hx2, hf⟩) h.1
      · exact ih h.2 hx2 hy2

/-- A stored transaction the CSV round trip preserves: cell-clean description,
normalized finite-decimal amount, valid calendar day, lowercase payment method,
and a resolvable category or source whose clean name also exists verbatim among
the import target's collections. -/
def GoodTx (scats : List Category) (ssrcs : List IncomeSource)
    (tcats : List Category) (tsrcs : List IncomeSource) (t : Transaction) : Prop :=
  cleanStr t.description ∧
  t.amount.normalized = true ∧ isFiniteDec t.amount = true ∧
  isValidDate (datePart t.date) = true ∧
  (t.paymentMethod = str "cash" ∨ t.paymentMethod = str "credit" ∨
    t.paymentMethod = str "bank") ∧
  ((t.type = str "expense" ∧
      ∃ c ∈ scats, (scats.find? fun c => some c.id == t.categoryId) = some c ∧
        cleanStr c.name ∧ ∃ c2 ∈ tcats, c2.name = c.name) ∨
   (t.type = str "income" ∧
      ∃ s ∈ ssrcs, (ssrcs.find? fun s => some s.id == t.sourceId) = some s ∧
        cleanStr s.name ∧ ∃ s2 ∈ tsrcs, s2.name = s.name))

instance (scats : List Category) (ssrcs : List IncomeSource)
    (tcats : List Category) (tsrcs : List IncomeSource) (t : Transaction) :
    Decidable (GoodTx scats ssrcs tcats tsrcs t) := by
  unfold GoodTx
  infer_instance

theorem exportRow_expense (scats : List Category) (ssrcs : List IncomeSource)
    (t : Transaction) (c : Category) (htyE : t.type = str "expense")
    (hfind : (scats.find? fun c => some c.id == t.categoryId) = some c) :
    exportRow scats ssrcs t = joinWith ',' [datePart t.date, quoteField t.description,
      printFrac t.amount, t.type, t.paymentMethod, c.name, []] := by
  unfold exportRow
  simp only [htyE, hfind]
  rw [if_pos (show (str "expense" == str "expense") = true from by decide),
      if_neg (show ¬ ((str "expense" == str "income") = true) from by decide)]
  rfl

theorem exportRow_income (scats : List Category) (ssrcs : List IncomeSource)
    (t : Transaction) (s0 : IncomeSource) (htyI : t.type = str "income")
    (hfind : (ssrcs.find? fun s => some s.id == t.sourceId) = some s0) :
    exportRow scats ssrcs t = joinWith ',' [datePart t.date, quoteField t.description,
      printFrac t.amount, t.type, t.paymentMethod, [], s0.name] := by
  unfold exportRow
  simp only [htyI, hfind]
  rw [if_neg (show ¬ ((str "income" == str "expense") = true) from by decide),
      if_pos (show (str "income" == str "income") = true from by decide)]
  rfl

theorem export_cells_clean (t : Transaction) (nm : Str)
    (hdesc : cleanStr t.description)
    (hdate : isValidDate (datePart t.date) = true)
    (hpm : t.paymentMethod = str "cash" ∨ t.paymentMethod = str "credit" ∨
      t.paymentMethod = str "bank")
    (hty : t.type = str "expense" ∨ t.type = str "income")
    (hnm : cleanStr nm) (c5 c6 : Str)
    (h56 : (c5 = nm ∧ c6 = []) ∨ (c5 = [] ∧ c6 = nm)) :
    ∀ p ∈ [datePart t.date, quoteField t.description, printFrac t.amount, t.type,
           t.paymentMethod, c5, c6], ∀ ch ∈ p, ((ch == ',') = false ∧ (ch == '\n') = false) := by
  intro p hp
  have hnil : ∀ ch ∈ ([] : Str), ((ch == ',') = false ∧ (ch == '\n') = false) := by
    intro ch hch; cases hch
  rcases List.mem_cons.mp hp with rfl | hp
  · exact cleanStr_of_date _ hdate
  rcases List.mem_cons.mp hp with rfl | hp
  · exact cleanStr_quoteField _ hdesc
  rcases List.mem_cons.mp hp with rfl | hp
  · exact cleanStr_printFrac _
  rcases List.mem_cons.mp hp with rfl | hp
  · rcases hty with h | h <;> rw [h] <;> decide
  rcases List.mem_cons.mp hp with rfl | hp
  · rcases hpm with h | h | h <;> rw [h] <;> decide
  rcases List.mem_cons.mp hp with rfl | hp
  · rcases h56 with ⟨h5, _⟩ | ⟨h5, _⟩
    · rw [h5]; exact hnm
    · rw [h5]; exact hnil
  rcases List.mem_cons.mp hp with rfl | hp
  · rcases h56 with ⟨_, h6⟩ | ⟨_, h6⟩
    · rw [h6]; exact hnil
    · rw [h6]; exact hnm
  cases hp

theorem parseRow_export_expense
    (scats tcats : List Category) (ssrcs tsrcs : List IncomeSource) (t : Transaction)
    (c c2 : Category)
    (hdesc : cleanStr t.description)
    (hnorm : t.amount.normalized = true) (hfin : isFiniteDec t.amount = true)
    (hdate : isValidDate (datePart t.date) = true)
    (hpm : t.paymentMethod = str "cash" ∨ t.paymentMethod = str "credit" ∨
      t.paymentMethod = str "bank")
    (htyE : t.type = str "expense")
    (hfind : (scats.find? fun c => some c.id == t.categoryId) = some c)
    (hcname : cleanStr c.name)
    (hc2 : c2 ∈ tcats) (hc2name : c2.name = c.name)
    (hcn : (tcats.map fun x => lowerStr x.name).Nodup) :
    parseRow tcats tsrcs (importHeader exportHeaderLine) (exportRow scats ssrcs t)
      = .accept ⟨str "expense", t.amount, t.description,
                 datePart t.date ++ str "T00:00:00.000Z", some c2.id, none,
                 t.paymentMethod⟩ := by
  have hrow := exportRow_expense scats ssrcs t c htyE hfind
  have hclean := export_cells_clean t c.name hdesc hdate hpm (Or.inl htyE) hcname
    c.name [] (Or.inl ⟨rfl, rfl⟩)
  have hsplit := split_join ',' [datePart t.date, quoteField t.description,
    printFrac t.amount, t.type, t.paymentMethod, c.name, []] (by simp)
    (fun p hp ch hch => (hclean p hp ch hch).1)
  obtain ⟨g0, g1, g2, g3, g4, g5, g6⟩ := rowGet_export7 (datePart t.date)
    (quoteField t.description) (printFrac t.amount) t.type t.paymentMethod c.name []
  have hdne := isValidDate_ne_nil _ hdate
  have hqne : (quoteField t.description == ([] : Str)) = false := rfl
  have htne : (t.type == ([] : Str)) = false := by rw [htyE]; decide
  have hamt := jsParseFloat_printFrac t.amount hnorm hfin
  have hlty : lowerStr t.type = str "expense" := by rw [htyE]; decide
  unfold parseRow
  rw [hrow, hsplit]
  simp only [g0, g1, g2, g3, g4, g5, g6, isFalsy, hdne, hqne, htne, hamt,
    Option.isNone_some, Bool.or_self, Bool.or_false, Bool.false_or, hlty,
    Option.getD_some]
  have hfT : (tcats.find? fun x => lowerStr x.name == lowerStr c.name) = some c2 := by
    apply find?_unique _ _ _ hc2
    · rw [hc2name]; exact beq_self_eq_true _
    · intro x hx hpx
      refine nodup_map_inj (fun y => lowerStr y.name) tcats hcn x c2 hx hc2 ?_
      show lowerStr x.name = lowerStr c2.name
      rw [hc2name]
      exact eq_of_beq hpx
  have hiso : jsDateISO (datePart t.date)
      = some (datePart t.date ++ str "T00:00:00.000Z") := by
    unfold jsDateISO
    rw [if_pos hdate]
  have hlpm : lowerStr t.paymentMethod = t.paymentMethod := by
    rcases hpm with h | h | h <;> rw [h] <;> decide
  simp only [hfT, hiso, import_desc_roundtrip, hlpm]
  rfl

theorem parseRow_export_income
    (scats tcats : List Category) (ssrcs tsrcs : List IncomeSource) (t : Transaction)
    (s0 s2 : IncomeSource)
    (hdesc : cleanStr t.description)
    (hnorm : t.amount.normalized = true) (hfin : isFiniteDec t.amount = true)
    (hdate : isValidDate (datePart t.date) = true)
    (hpm : t.paymentMethod = str "cash" ∨ t.paymentMethod = str "credit" ∨
      t.paymentMethod = str "bank")
    (htyI : t.type = str "income")
    (hfind : (ssrcs.find? fun s => some s.id == t.sourceId) = some s0)
    (hsname : cleanStr s0.name)
    (hs2 : s2 ∈ tsrcs) (hs2name : s2.name = s0.name)
    (hsn : (tsrcs.map fun x => lowerStr x.name).Nodup) :
    parseRow tcats tsrcs (importHeader exportHeaderLine) (exportRow scats ssrcs t)
      = .accept ⟨str "income", t.amount, t.description,
                 datePart t.date ++ str "T00:00:00.000Z", none, some s2.id,
                 t.paymentMethod⟩ := by
  have hrow := exportRow_income scats ssrcs t s0 htyI hfind
  have hclean := export_cells_clean t s0.name hdesc hdate hpm (Or.inr htyI) hsname
    [] s0.name (Or.inr ⟨rfl, rfl⟩)
  have hsplit := split_join ',' [datePart t.date, quoteField t.description,
    printFrac t.amount, t.type, t.paymentMethod, [], s0.name] (by simp)
    (fun p hp ch hch => (hclean p hp ch hch).1)
  obtain ⟨g0, g1, g2, g3, g4, g5, g6⟩ := rowGet_export7 (datePart t.date)
    (quoteField t.description) (printFrac t.amount) t.type t.paymentMethod [] s0.name
  have hdne := isValidDate_ne_nil _ hdate
  have hqne : (quoteField t.description == ([] : Str)) = false := rfl
  have htne : (t.type == ([] : Str)) = false := by rw [htyI]; decide
  have hamt := jsParseFloat_printFrac t.amount hnorm hfin
  have hlty : lowerStr t.type = str "income" := by rw [htyI]; decide
  unfold parseRow
  rw [hrow, hsplit]
  simp only [g0, g1, g2, g3, g4, g5, g6, isFalsy, hdne, hqne, htne, hamt,
    Option.isNone_some, Bool.or_self, Bool.or_false, Bool.false_or, hlty,
    Option.getD_some]
  have hfT : (tsrcs.find? fun x => lowerStr x.name == lowerStr s0.name) = some s2 := by
    apply find?_unique _ _ _ hs2
    · rw [hs2name]; exact beq_self_eq_true _
    · intro x hx hpx
      refine nodup_map_inj (fun y => lowerStr y.name) tsrcs hsn x s2 hx hs2 ?_
      show lowerStr x.name = lowerStr s2.name
      rw [hs2name]
      exact eq_of_beq hpx
  have hiso : jsDateISO (datePart t.date)
      = some (datePart t.date ++ str "T00:00:00.000Z") := by
    unfold jsDateISO
    rw [if_pos hdate]
  have hlpm : lowerStr t.paymentMethod = t.paymentMethod := by
    rcases hpm with h | h | h <;> rw [h] <;> decide
  simp only [hfT, hiso, import_desc_roundtrip, hlpm]
  rfl

theorem tupleOf_export_expense (scats tcats : List Category)
    (ssrcs tsrcs : List IncomeSource)
    (t : Transaction) (c c2 : Category) (i p : Str)
    (hdate : isValidDate (datePart t.date) = true)
    (htyE : t.type = str "expense")
    (hfind : (scats.find? fun c => some c.id == t.categoryId) = some c)
    (hc2 : c2 ∈ tcats) (hc2name : c2.name = c.name)
    (hci : (tcats.map Category.id).Nodup) :
    tupleOf tcats tsrcs
      ((⟨str "expense", t.amount, t.description,
         datePart t.date ++ str "T00:00:00.000Z", some c2.id, none,
         t.paymentMethod⟩ : TxDraft).asTx i p)
      = tupleOf scats ssrcs t := by
  have hdp : datePart (datePart t.date ++ str "T00:00:00.000Z") = datePart t.date := by
    rw [show str "T00:00:00.000Z" = 'T' :: str "00:00:00.000Z" from rfl]
    exact datePart_append _ _ (isValidDate_no_T _ hdate)
  have hfid : (tcats.find? fun x => some x.id == some c2.id) = some c2 := by
    apply find?_unique _ _ _ hc2
    · exact beq_self_eq_true _
    · intro x hx hpx
      exact nodup_map_inj Category.id tcats hci x c2 hx hc2
        (Option.some_inj.mp (eq_of_beq hpx))
  unfold tupleOf TxDraft.asTx
  simp only [htyE, hfind, hfid, hdp]
  rw [if_pos (show (str "expense" == str "expense") = true from by decide),
      if_pos (show (str "expense" == str "expense") = true from by decide)]
  show RowTuple.mk _ _ _ _ _ c2.name = RowTuple.mk _ _ _ _ _ c.name
  rw [hc2name]

theorem tupleOf_export_income (scats tcats : List Category)
    (ssrcs tsrcs : List IncomeSource)
    (t : Transaction) (s0 s2 : IncomeSource) (i p : Str)
    (hdate : isValidDate (datePart t.date) = true)
    (htyI : t.type = str "income")
    (hfind : (ssrcs.find? fun s => some s.id == t.sourceId) = some s0)
    (hs2 : s2 ∈ tsrcs) (hs2name : s2.name = s0.name)
    (hsi : (tsrcs.map IncomeSource.id).Nodup) :
    tupleOf tcats tsrcs
      ((⟨str "income", t.amount, t.description,
         datePart t.date ++ str "T00:00:00.000Z", none, some s2.id,
         t.paymentMethod⟩ : TxDraft).asTx i p)
      = tupleOf scats ssrcs t := by
  have hdp : datePart (datePart t.date ++ str "T00:00:00.000Z") = datePart t.date := by
    rw [show str "T00:00:00.000Z" = 'T' :: str "00:00:00.000Z" from rfl]
    exact datePart_append _ _ (isValidDate_no_T _ hdate)
  have hfid : (tsrcs.find? fun x => some x.id == some s2.id) = some s2 := by
    apply find?_unique _ _ _ hs2
    · exact beq_self_eq_true _
    · intro x hx hpx
      exact nodup_map_inj IncomeSource.id tsrcs hsi x s2 hx hs2
        (Option.some_inj.mp (eq_of_beq hpx))
  unfold tupleOf TxDraft.asTx
  simp only [htyI, hfind, hfid, hdp]
  rw [if_neg (show ¬ ((str "income" == str "expense") = true) from by decide),
      if_neg (show ¬ ((str "income" == str "expense") = true) from by decide),
      if_pos (show (str "income" == str "income") = true from by decide),
      if_pos (show (str "income" == str "income") = true from by decide)]
  show RowTuple.mk _ _ _ _ _ s2.name = RowTuple.mk _ _ _ _ _ s0.name
  rw [hs2name]

theorem parseRow_export_good (scats tcats : List Category)
    (ssrcs tsrcs : List IncomeSource) (t : Transaction)
    (hg : GoodTx scats ssrcs tcats tsrcs t)
    (hcn : (tcats.map fun x => lowerStr x.name).Nodup)
    (hsn : (tsrcs.map fun x => lowerStr x.name).Nodup)
    (hci : (tcats.map Category.id).Nodup)
    (hsi : (tsrcs.map IncomeSource.id).Nodup) :
    ∃ d : TxDraft,
      parseRow tcats tsrcs (importHeader exportHeaderLine) (exportRow scats ssrcs t)
        = .accept d ∧
      ∀ i p : Str, tupleOf tcats tsrcs (d.asTx i p) = tupleOf scats ssrcs t := by
  obtain ⟨hdesc, hnorm, hfin, hdate, hpm, hty⟩ := hg
  rcases hty with ⟨htyE, c, _, hfind, hcname, c2, hc2, hc2name⟩ |
    ⟨htyI, s0, _, hfind, hsname, s2, hs2, hs2name⟩
  · exact ⟨_, parseRow_export_expense scats tcats ssrcs tsrcs t c c2 hdesc hnorm hfin
        hdate hpm htyE hfind hcname hc2 hc2name hcn,
      fun i p => tupleOf_export_expense scats tcats ssrcs tsrcs t c c2 i p hdate htyE
        hfind hc2 hc2name hci⟩
  · exact ⟨_, parseRow_export_income scats tcats ssrcs tsrcs t s0 s2 hdesc hnorm hfin
        hdate hpm htyI hfind hsname hs2 hs2name hsn,
      fun i p => tupleOf_export_income scats tcats ssrcs tsrcs t s0 s2 i p hdate htyI
        hfind hs2 hs2name hsi⟩

theorem parseRows_export (scats tcats : List Category)
    (ssrcs tsrcs : List IncomeSource)
    (hcn : (tcats.map fun x => lowerStr x.name).Nodup)
    (hsn : (tsrcs.map fun x => lowerStr x.name).Nodup)
    (hci : (tcats.map Category.id).Nodup)
    (hsi : (tsrcs.map IncomeSource.id).Nodup)
    (ts : List Transaction)
    (hgood : ∀ t ∈ ts, GoodTx scats ssrcs tcats tsrcs t) :
    ∃ ds : List TxDraft,
      parseRows tcats tsrcs (importHeader exportHeaderLine)
          (ts.map (exportRow scats ssrcs)) = some ds ∧
      ds.length = ts.length ∧
      ds.map (fun d => tupleOf tcats tsrcs (d.asTx [] []))
        = ts.map (tupleOf scats ssrcs) := by
  revert hgood
  induction ts with
  | nil => exact fun _ => ⟨[], rfl, rfl, rfl⟩
  | cons t ts ih =>
    intro hgood
    obtain ⟨d, hpr, htup⟩ := parseRow_export_good scats tcats ssrcs tsrcs t
      (hgood t (by simp)) hcn hsn hci hsi
    obtain ⟨ds, hprs, hlen, hmap⟩ := ih fun x hx => hgood x (by simp [hx])
    refine ⟨d :: ds, ?_, by simp [hlen], ?_⟩
    · show parseRows tcats tsrcs (importHeader exportHeaderLine)
        (exportRow scats ssrcs t :: ts.map (exportRow scats ssrcs)) = some (d :: ds)
      conv_lhs => unfold parseRows
      simp only [hpr, hprs]
      rfl
    · simp only [List.map_cons, hmap, htup [] []]

theorem joinWith_chars (sep : Char) : ∀ (ps : List Str), ∀ c ∈ joinWith sep ps,
    c = sep ∨ ∃ p ∈ ps, c ∈ p
  | [] => by intro c hc; cases hc
  | [p] => by intro c hc; exact Or.inr ⟨p, by simp, hc⟩
  | p :: p2 :: ps => by
    intro c hc
    rw [show joinWith sep (p :: p2 :: ps) = p ++ sep :: joinWith sep (p2 :: ps)
      from rfl] at hc
    rcases List.mem_append.mp hc with h | h
    · exact Or.inr ⟨p, by simp, h⟩
    · rcases List.mem_cons.mp h with rfl | h2
      · exact Or.inl rfl
      · rcases joinWith_chars sep (p2 :: ps) c h2 with h3 | ⟨q, hq, hcq⟩
        · exact Or.inl h3
        · exact Or.inr ⟨q, List.mem_cons_of_mem _ hq, hcq⟩

theorem exportRow_line_ok (scats tcats : List Category)
    (ssrcs tsrcs : List IncomeSource) (t : Transaction)
    (hg : GoodTx scats ssrcs tcats tsrcs t) :
    (∀ ch ∈ exportRow scats ssrcs t, (ch == '\n') = false) ∧
    (trimStr (exportRow scats ssrcs t) == ([] : Str)) = false := by
  obtain ⟨hdesc, hnorm, hfin, hdate, hpm, hty⟩ := hg
  have hshape : ∃ c5 c6, exportRow scats ssrcs t
      = joinWith ',' [datePart t.date, quoteField t.description, printFrac t.amount,
          t.type, t.paymentMethod, c5, c6] ∧
      ∀ p ∈ [datePart t.date, quoteField t.description, printFrac t.amount,
          t.type, t.paymentMethod, c5, c6],
        ∀ ch ∈ p, (ch == ',') = false ∧ (ch == '\n') = false := by
    rcases hty with ⟨htyE, c, _, hfind, hcname, c2, hc2, hc2name⟩ |
      ⟨htyI, s0, _, hfind, hsname, s2, hs2, hs2name⟩
    · exact ⟨c.name, [], exportRow_expense scats ssrcs t c htyE hfind,
        export_cells_clean t c.name hdesc hdate hpm (Or.inl htyE) hcname
          c.name [] (Or.inl ⟨rfl, rfl⟩)⟩
    · exact ⟨[], s0.name, exportRow_income scats ssrcs t s0 htyI hfind,
        export_cells_clean t s0.name hdesc hdate hpm (Or.inr htyI) hsname
          [] s0.name (Or.inr ⟨rfl, rfl⟩)⟩
  obtain ⟨c5, c6, hrow, hclean⟩ := hshape
  constructor
  · intro ch hch
    rw [hrow] at hch
    rcases joinWith_chars ',' _ ch hch with rfl | ⟨p, hp, hcp⟩
    · decide
    · exact (hclean p hp ch hcp).2
  · have hdne := isValidDate_ne_nil _ hdate
    obtain ⟨c0, cs0, hdp⟩ : ∃ c0 cs0, datePart t.date = c0 :: cs0 := by
      cases hdp2 : datePart t.date with
      | nil => rw [hdp2] at hdne; simp at hdne
      | cons a as => exact ⟨a, as, rfl⟩
    have hc0mem : c0 ∈ exportRow scats ssrcs t := by
      rw [hrow, show joinWith ',' [datePart t.date, quoteField t.description,
        printFrac t.amount, t.type, t.paymentMethod, c5, c6]
          = datePart t.date ++ ',' :: joinWith ',' [quoteField t.description,
        printFrac t.amount, t.type, t.paymentMethod, c5, c6] from rfl, hdp]
      simp
    have hws : isWsChar c0 = false := by
      rcases isValidDate_chars _ hdate c0 (by rw [hdp]; simp) with hd | hd
      · exact digit_not_ws c0 hd
      · rw [hd]; decide
    exact trimStr_ne_nil _ c0 hc0mem hws

theorem importLines_export (S : AppData) (spid : Str)
    (tcats : List Category) (tsrcs : List IncomeSource)
    (hgood : ∀ t ∈ profileTransactions S spid,
      GoodTx (profileCategories S spid) (profileIncomeSources S spid) tcats tsrcs t) :
    importLines (handleExportCSV S spid)
      = exportHeaderLine :: (profileTransactions S spid).map
          (exportRow (profileCategories S spid) (profileIncomeSources S spid)) := by
  have hfree : ∀ p ∈ exportHeaderLine :: (profileTransactions S spid).map
      (exportRow (profileCategories S spid) (profileIncomeSources S spid)),
      ∀ c ∈ p, (c == '\n') = false := by
    intro p hp
    rcases List.mem_cons.mp hp with rfl | hp2
    · decide
    · obtain ⟨t, ht, rfl⟩ := List.mem_map.mp hp2
      exact (exportRow_line_ok _ tcats _ tsrcs t (hgood t ht)).1
  unfold handleExportCSV importLines
  rw [split_join '\n' _ (by simp) hfree]
  rw [List.filter_eq_self.mpr ?_]
  intro l hl
  rcases List.mem_cons.mp hl with rfl | hl2
  · decide
  · obtain ⟨t, ht, rfl⟩ := List.mem_map.mp hl2
    have h2 := (exportRow_line_ok _ tcats _ tsrcs t (hgood t ht)).2
    simp [h2]

theorem enum_snd_mem {α : Type} : ∀ (n : Nat) (l : List α) (p : Nat × α),
    p ∈ l.enumFrom n → p.2 ∈ l
  | _, [], _, hp => absurd hp (by simp)
  | n, a :: as, p, hp => by
    rw [show (a :: as).enumFrom n = (n, a) :: as.enumFrom (n + 1) from rfl] at hp
    rcases List.mem_cons.mp hp with rfl | hp2
    · simp
    · exact List.mem_cons_of_mem _ (enum_snd_mem (n + 1) as p hp2)

theorem withId_profileId (ds : List TxDraft) (pid : Str) (gen : Nat → Str) :
    ∀ t ∈ ((ds.map fun d => d.toNew pid).enum.map fun pr => pr.2.withId (gen pr.1)),
      t.profileId = pid := by
  intro t ht
  obtain ⟨pr, hpr, rfl⟩ := List.mem_map.mp ht
  have h2 : pr.2 ∈ ds.map fun d => d.toNew pid := enum_snd_mem 0 _ pr hpr
  obtain ⟨d, _, hdeq⟩ := List.mem_map.mp h2
  show (pr.2.withId (gen pr.1)).profileId = pid
  rw [← hdeq]
  rfl

theorem withId_enumFrom_map (tcats : List Category) (tsrcs : List IncomeSource)
    (pid : Str) (gen : Nat → Str) : ∀ (n : Nat) (ds : List TxDraft),
    (((ds.map fun d => d.toNew pid).enumFrom n).map fun pr => pr.2.withId (gen pr.1)).map
        (tupleOf tcats tsrcs)
      = ds.map fun d => tupleOf tcats tsrcs (d.asTx [] [])
  | _, [] => rfl
  | n, d :: ds => by
    simp only [List.map_cons]
    rw [show ((d.toNew pid :: ds.map fun d => d.toNew pid).enumFrom n)
        = (n, d.toNew pid) :: ((ds.map fun d => d.toNew pid).enumFrom (n + 1)) from rfl]
    simp only [List.map_cons]
    rw [withId_enumFrom_map tcats tsrcs pid gen (n + 1) ds]
    rw [show ((n, d.toNew pid) : Nat × NewTransaction).2.withId (gen (n, d.toNew pid).1)
        = d.asTx (gen n) pid from rfl]
    rw [tupleOf_asTx tcats tsrcs d (gen n) pid [] []]

theorem withId_enum_map (tcats : List Category) (tsrcs : List IncomeSource)
    (pid : Str) (gen : Nat → Str) (ds : List TxDraft) :
    (((ds.map fun d => d.toNew pid).enum).map fun pr => pr.2.withId (gen pr.1)).map
        (tupleOf tcats tsrcs)
      = ds.map fun d => tupleOf tcats tsrcs (d.asTx [] []) :=
  withId_enumFrom_map tcats tsrcs pid gen 0 ds

/-- C4: exporting a profile's transactions and importing the text into a
profile carrying the same names reproduces the transactions tuple for
tuple. -/
theorem c4_csv_roundtrip (S T : AppData) (spid tpid : Str) (gen : Nat → Str)
    (hgood : ∀ t ∈ profileTransactions S spid,
      GoodTx (profileCategories S spid) (profileIncomeSources S spid)
        (profileCategories T tpid) (profileIncomeSources T tpid) t)
    (hcn : ((profileCategories T tpid).map fun x => lowerStr x.name).Nodup)
    (hsn : ((profileIncomeSources T tpid).map fun x => lowerStr x.name).Nodup)
    (hci : ((profileCategories T tpid).map Category.id).Nodup)
    (hsi : ((profileIncomeSources T tpid).map IncomeSource.id).Nodup) :
    ∃ (T2 : AppData) (out : ImportOutcome) (newTx : List Transaction),
      handleImportCSV T tpid (handleExportCSV S spid) gen = some (T2, out) ∧
      T2.users = T.users ∧ T2.profiles = T.profiles ∧
      T2.categories = T.categories ∧ T2.incomeSources = T.incomeSources ∧
      T2.currencies = T.currencies ∧
      T2.transactions = T.transactions ++ newTx ∧
      (∀ t ∈ newTx, t.profileId = tpid) ∧
      newTx.map (tupleOf (profileCategories T tpid) (profileIncomeSources T tpid))
        = (profileTransactions S spid).map
            (tupleOf (profileCategories S spid) (profileIncomeSources S spid)) := by
  have hlines := importLines_export S spid (profileCategories T tpid)
    (profileIncomeSources T tpid) hgood
  obtain ⟨ds, hprs, hlen, hmap⟩ := parseRows_export
    (profileCategories S spid) (profileCategories T tpid)
    (profileIncomeSources S spid) (profileIncomeSources T tpid)
    hcn hsn hci hsi (profileTransactions S spid) hgood
  cases hts : profileTransactions S spid with
  | nil =>
    refine ⟨T, .emptyFile, [], ?_, rfl, rfl, rfl, rfl, rfl, by simp, by simp,
      by simp⟩
    rw [hts] at hlines
    simp only [List.map_nil] at hlines
    unfold handleImportCSV
    rw [hlines]
  | cons t ts =>
    rw [hts, List.map_cons] at hprs hlines
    rw [hts] at hmap
    have heval := handleImportCSV_eval T tpid (handleExportCSV S spid) gen
      exportHeaderLine
      (exportRow (profileCategories S spid) (profileIncomeSources S spid) t)
      (ts.map (exportRow (profileCategories S spid) (profileIncomeSources S spid)))
      ds hlines (by decide) hprs
    have hdsne : ds ≠ [] := by
      intro h
      rw [h, hts] at hlen
      simp at hlen
    refine ⟨_, _, _, heval.2 hdsne, rfl, rfl, rfl, rfl, rfl, rfl,
      withId_profileId ds tpid gen, ?_⟩
    rw [withId_enum_map (profileCategories T tpid) (profileIncomeSources T tpid)
      tpid gen ds]
    exact hmap

/-- Round-trip witness source store: one profile with an expense and an
income transaction, a category and an income source. -/
def c4wS : AppData :=
  ⟨[], [⟨str "ps", str "Src", str "USD", str "u1"⟩],
   [⟨str "t1", str "ps", str "expense", ⟨25, 2⟩, str "Lunch out",
     str "2024-01-15T10:30:00.000Z", some (str "c1"), none, str "cash", none⟩,
    ⟨str "t2", str "ps", str "income", ⟨100, 1⟩, str "Pay",
     str "2024-02-29T00:00:00.000Z", none, some (str "s1"), str "bank", none⟩],
   [⟨str "c1", str "Food", str "i", none, str "ps"⟩],
   [⟨str "s1", str "Salary", str "i", none, str "ps"⟩], []⟩

/-- Round-trip witness target store: an empty profile carrying the same
category and income-source names. -/
def c4wT : AppData :=
  ⟨[], [⟨str "pt", str "Dst", str "USD", str "u2"⟩], [],
   [⟨str "d1", str "Food", str "i", none, str "pt"⟩],
   [⟨str "e1", str "Salary", str "i", none, str "pt"⟩], []⟩

/-- Identifier supply for the witness import. -/
def c4wgen : Nat → Str := fun i => 'w' :: natStr i

/-- Closed instance of C4: the two-transaction profile exports and re-imports
into the name-matching target profile with every row tuple reproduced. -/
theorem c4_csv_roundtrip_witness :
    ∃ (T2 : AppData) (out : ImportOutcome) (newTx : List Transaction),
      handleImportCSV c4wT (str "pt") (handleExportCSV c4wS (str "ps")) c4wgen
        = some (T2, out) ∧
      T2.users = c4wT.users ∧ T2.profiles = c4wT.profiles ∧
      T2.categories = c4wT.categories ∧ T2.incomeSources = c4wT.incomeSources ∧
      T2.currencies = c4wT.currencies ∧
      T2.transactions = c4wT.transactions ++ newTx ∧
      (∀ t ∈ newTx, t.profileId = str "pt") ∧
      newTx.map (tupleOf (profileCategories c4wT (str "pt"))
                         (profileIncomeSources c4wT (str "pt")))
        = (profileTransactions c4wS (str "ps")).map
            (tupleOf (profileCategories c4wS (str "ps"))
                     (profileIncomeSources c4wS (str "ps"))) :=
  c4_csv_roundtrip c4wS c4wT (str "ps") (str "pt") c4wgen (by decide) (by decide)
    (by decide) (by decide) (by decide)

/-- Counterexample source store: two expense transactions whose categories
differ only in case. -/
def c4xS : AppData :=
  ⟨[], [⟨str "ps", str "Src", str "USD", str "u1"⟩],
   [⟨str "t1", str "ps", str "expense", ⟨5, 1⟩, str "A",
     str "2024-01-15T00:00:00.000Z", some (str "c1"), none, str "cash", none⟩,
    ⟨str "t2", str "ps", str "expense", ⟨7, 1⟩, str "B",
     str "2024-01-16T00:00:00.000Z", some (str "c2"), none, str "cash", none⟩],
   [⟨str "c1", str "Food", str "i", none, str "ps"⟩,
    ⟨str "c2", str "FOOD", str "i", none, str "ps"⟩],
   [], []⟩

/-- Counterexample target store: an empty profile carrying the same two
case-variant category names. -/
def c4xT : AppData :=
  ⟨[], [⟨str "pt", str "Dst", str "USD", str "u2"⟩], [],
   [⟨str "d1", str "Food", str "i", none, str "pt"⟩,
    ⟨str "d2", str "FOOD", str "i", none, str "pt"⟩],
   [], []⟩

/-- Identifier supply for the counterexample import. -/
def c4xgen : Nat → Str := fun i => 'x' :: natStr i

/-- The row tuples the counterexample import commits, when it succeeds. -/
def c4xImportedT : Option (List RowTuple) :=
  (handleImportCSV c4xT (str "pt") (handleExportCSV c4xS (str "ps")) c4xgen).map
    fun pr => (pr.1.transactions.drop c4xT.transactions.length).map
      (tupleOf (profileCategories c4xT (str "pt"))
               (profileIncomeSources c4xT (str "pt")))

/-- The row tuples of the counterexample source profile. -/
def c4xExportedT : List RowTuple :=
  (profileTransactions c4xS (str "ps")).map
    (tupleOf (profileCategories c4xS (str "ps"))
             (profileIncomeSources c4xS (str "ps")))

/-- C4 counterexample: with case-variant category names Food and FOOD present
on both sides, the import resolves both exported names to the first
case-insensitive match, so the committed tuple multiset drops FOOD and the
round trip is not multiset-preserving. -/
theorem c4_csv_roundtrip_counterexample :
    (c4xImportedT.map fun l => l.map fun r => r.name)
      = some [str "Food", str "Food"] ∧
    (c4xExportedT.map fun r => r.name) = [str "Food", str "FOOD"] ∧
    c4xImportedT.map Multiset.ofList ≠ some (Multiset.ofList c4xExportedT) := by
  refine ⟨by decide, by decide, by decide⟩
